import Mathlib

/-!
# Verification of the recipe reconciliation and export/import subsystem

A shallow embedding of the core logic of the `cook-anything` repository:

* `src/lib/storage.ts` — slug generation and CRUD over the recipe collection
  persisted as one JSON array under a single localStorage key;
* the import reconciler (`importRecipe`, `previewImport`, `importRecipes`);
* the HTML export/import codec (`generateRecipeHtml`, `parseRecipeFromHtml`,
  `generateExportFilename`) from `src/mcp/components/RecipeFlowApp.tsx`.

Modelling conventions:

* JavaScript strings are Lean `String` (a list of Unicode scalar values).
  `String.prototype.toLowerCase` is modelled as ASCII case mapping: full
  Unicode case mapping is host behaviour and no claim depends on non-ASCII
  case folding.
* `localStorage` is explicit state: the value stored under the single key
  `recipe-flow-recipes`, of type `Option String` (`none` = key absent).
  Every function of the source that reads or writes the key takes and
  returns this state.  `typeof window === 'undefined'` guards are dropped:
  the model is the browser environment.
* `new Date().toISOString()` (the current time) is an explicit `now : String`
  parameter of the operations that stamp it.
* `JSON.parse` / `JSON.stringify` (host primitives invoked by the source) are
  modelled by an executable JSON codec over a `Json` value type below.  JSON
  numbers are restricted to natural-number literals: every number the
  application serializes (step numbers, timer minutes, servings) is one.
* `new Date(s).getTime()` is modelled for the canonical ISO-8601 format
  `YYYY-MM-DDTHH:MM:SS.mmmZ` — the only format the application itself writes
  (via `toISOString`); every other string is treated as unparseable (NaN).
-/

/-! ## JavaScript string primitives -/

/-- The JavaScript `\s` character class (WhiteSpace ∪ LineTerminator),
used by the regexes in `generateSlug` and by `String.prototype.trim`. -/
def isJsWs (c : Char) : Bool :=
  c = ' ' || c = '\t' || c = '\n' || c.toNat = 11 || c.toNat = 12 || c = '\r' ||
  c.toNat = 0xa0 || c.toNat = 0x1680 ||
  (0x2000 ≤ c.toNat && c.toNat ≤ 0x200a) ||
  c.toNat = 0x2028 || c.toNat = 0x2029 || c.toNat = 0x202f ||
  c.toNat = 0x205f || c.toNat = 0x3000 || c.toNat = 0xfeff

/-- ASCII lower-casing of one character (model of `toLowerCase`, which the
source only ever feeds titles whose case-relevant characters are ASCII). -/
def asciiLower (c : Char) : Char :=
  if 'A' ≤ c && c ≤ 'Z' then Char.ofNat (c.toNat + 32) else c

/-- Model of `String.prototype.toLowerCase` (ASCII fragment). -/
def jsToLower (s : String) : String := ⟨s.data.map asciiLower⟩

/-- Replace every run of characters satisfying `p` by the single character
`rep`: the effect of `.replace(/p+/g, rep)`.  The boolean flag records
whether we are inside a run whose replacement was already emitted. -/
def squashRuns (p : Char → Bool) (rep : Char) : Bool → List Char → List Char
  | _, [] => []
  | inRun, c :: cs =>
    if p c then
      (if inRun then squashRuns p rep true cs else rep :: squashRuns p rep true cs)
    else c :: squashRuns p rep false cs

/-- Model of `String.prototype.trim` (strips JS whitespace at both ends). -/
def jsTrim (s : String) : String :=
  ⟨((s.data.dropWhile isJsWs).reverse.dropWhile isJsWs).reverse⟩

/-- Character class kept by `generateSlug`'s filter `[^a-z0-9\s-]` → removed,
i.e. kept characters are `[a-z0-9\s-]`. -/
def isSlugKeep (c : Char) : Bool :=
  ('a' ≤ c && c ≤ 'z') || ('0' ≤ c && c ≤ '9') || isJsWs c || c = '-'

/-- `generateSlug` from `src/lib/storage.ts`: lowercase, then remove every
character outside the class `[a-z0-9\s-]` (global regex replace by the empty
string), then replace every whitespace run (regex `\s+`) by one hyphen, then
collapse every hyphen run (regex of one-or-more hyphens) to one hyphen, then
`.trim()`.  Note the final step is `String.prototype.trim`, which strips
*whitespace* — by that point every whitespace run has already been replaced
by a hyphen. -/
def generateSlug (title : String) : String :=
  jsTrim ⟨squashRuns (· = '-') '-' false
           (squashRuns isJsWs '-' false
             ((jsToLower title).data.filter isSlugKeep))⟩

example : generateSlug "Garlic Butter Pasta" = "garlic-butter-pasta" := by decide
example : generateSlug " a " = "-a-" := by decide
example : generateSlug "Chef\x27s Special (2024)" = "chefs-special-2024" := by decide

/-! ## Rendering numbers (JS `String(n)` for the natural numbers the app uses) -/

/-- Accumulating decimal printer; the fuel argument is structural and always
suffices because `n < 10 ^ (n + 1)`. -/
def natToStrAux : Nat → Nat → List Char → List Char
  | 0, _, acc => acc
  | fuel + 1, n, acc =>
    let d := Char.ofNat (48 + n % 10)
    if n < 10 then d :: acc else natToStrAux fuel (n / 10) (d :: acc)

/-- Decimal rendering of a natural number, model of `String(n)` and of the
output of `JSON.stringify` on the app's (integral) numbers. -/
def natToStr (n : Nat) : String := ⟨natToStrAux (n + 1) n []⟩

example : natToStr 0 = "0" := by decide
example : natToStr 1070 = "1070" := by decide

/-! ## The data model (`src/lib/types.ts` and `src/lib/recipe.ts`) -/

/-- `type` of a `Step`: `'prep' | 'cook' | 'rest'`. -/
inductive StepType
  | prep
  | cook
  | rest
deriving DecidableEq, Repr

/-- `Step` (`src/lib/recipe.ts` `StepSchema`). -/
structure Step where
  stepNumber : Nat
  type : StepType
  instruction : String
  ingredients : List String
  equipment : Option (List String)
  timerMinutes : Nat
deriving DecidableEq, Repr

/-- `FlowGroup`. -/
structure FlowGroup where
  parallel : Bool
  steps : List Step
deriving DecidableEq, Repr

/-- `role` of a `Message`: `'user' | 'assistant'`. -/
inductive Role
  | user
  | assistant
deriving DecidableEq, Repr

/-- `type` of a `MessageContent`: `'text' | 'image'`. -/
inductive ContentType
  | text
  | image
deriving DecidableEq, Repr

/-- `MessageContent` (`src/lib/types.ts`): `type` plus optional `text`,
`image` (base64 payload) and `mimeType` fields. -/
structure MessageContent where
  type : ContentType
  text : Option String
  image : Option String
  mimeType : Option String
deriving DecidableEq, Repr

/-- `content` of a `Message`: `string | MessageContent[]`. -/
inductive MsgContent
  | str (s : String)
  | parts (cs : List MessageContent)
deriving DecidableEq, Repr

/-- `Message`. -/
structure Message where
  role : Role
  content : MsgContent
deriving DecidableEq, Repr

/-- `MeasureSystem`: `'metric' | 'american'`. -/
inductive MeasureSystem
  | metric
  | american
deriving DecidableEq, Repr

/-- `Recipe` (`src/lib/types.ts`): the LLM output schema (`RecipeOutput`:
`title`, optional `servings` number, optional top-level `ingredients` and
`equipment`, `flowGroups`) extended with app metadata (`slug`, `savedAt`,
`conversationHistory`, `measureSystem`, `servingsCount`).  Absent optional
fields are `none` (JS `undefined`). -/
structure Recipe where
  title : String
  servings : Option Nat
  ingredients : Option (List String)
  equipment : Option (List String)
  flowGroups : List FlowGroup
  slug : Option String
  savedAt : Option String
  conversationHistory : Option (List Message)
  measureSystem : Option MeasureSystem
  servingsCount : Option Nat
deriving DecidableEq, Repr

/-! ## JSON values

`JSON.parse` / `JSON.stringify` are host primitives invoked by the source;
they are modelled over the following value type.  Mutual inductives (instead
of a nested `List Json`) keep every definition structurally recursive and
kernel-reducible.  JSON numbers are restricted to natural-number literals
(see the header). -/

mutual
inductive Json
  | str (s : String)
  | num (n : Nat)
  | jbool (b : Bool)
  | jnull
  | arr (elems : JsonList)
  | obj (fields : JsonFields)
deriving DecidableEq, Repr

inductive JsonList
  | nil
  | cons (hd : Json) (tl : JsonList)
deriving DecidableEq, Repr

inductive JsonFields
  | nil
  | cons (key : String) (val : Json) (tl : JsonFields)
deriving DecidableEq, Repr
end

/-- Convert a Lean list of values into a `JsonList`. -/
def jl : List Json → JsonList
  | [] => .nil
  | x :: xs => .cons x (jl xs)

/-! ### `JSON.stringify` -/

/-- Lowercase hexadecimal digit. -/
def hexDigit (n : Nat) : Char :=
  if n < 10 then Char.ofNat (48 + n) else Char.ofNat (87 + n)

/-- String escaping of `JSON.stringify`: `"` and `\` get a backslash, the
named control escapes are used for backspace, tab, newline, form feed and
carriage return, any other control character becomes `\u00XX`, and every
other character is emitted verbatim. -/
def jsonEscapeChar (c : Char) : List Char :=
  if c = '"' then ['\\', '"']
  else if c = '\\' then ['\\', '\\']
  else if c = '\x08' then ['\\', 'b']
  else if c = '\t' then ['\\', 't']
  else if c = '\n' then ['\\', 'n']
  else if c = '\x0c' then ['\\', 'f']
  else if c = '\r' then ['\\', 'r']
  else if c.toNat < 0x20 then
    ['\\', 'u', '0', '0', hexDigit (c.toNat / 16), hexDigit (c.toNat % 16)]
  else [c]

/-- A JSON string literal: quote, escape, quote. -/
def jsonQuote (s : String) : List Char :=
  '"' :: (s.data.map jsonEscapeChar).flatten ++ ['"']

/-- Indentation emitted by `JSON.stringify(v, null, 2)` at nesting depth `d`. -/
def jpad (d : Nat) : List Char := List.replicate (2 * d) ' '

mutual
/-- `JSON.stringify v` (when `pretty = false`) and
`JSON.stringify(v, null, 2)` (when `pretty = true`, `d` = nesting depth of
`v`; the source uses index 2 in `generateRecipeHtml` and the compact form
when persisting to localStorage). -/
def serJson (pretty : Bool) (d : Nat) : Json → List Char
  | .str s => jsonQuote s
  | .num n => natToStrAux (n + 1) n []
  | .jbool true => ['t', 'r', 'u', 'e']
  | .jbool false => ['f', 'a', 'l', 's', 'e']
  | .jnull => ['n', 'u', 'l', 'l']
  | .arr xs =>
    match xs with
    | .nil => ['[', ']']
    | .cons _ _ =>
      if pretty then
        '[' :: '\n' :: (serArrItems pretty (d + 1) xs ++ '\n' :: jpad d ++ [']'])
      else
        '[' :: (serArrItems pretty (d + 1) xs ++ [']'])
  | .obj fs =>
    match fs with
    | .nil => ['\x7b', '\x7d']
    | .cons _ _ _ =>
      if pretty then
        '\x7b' :: '\n' :: (serObjItems pretty (d + 1) fs ++ '\n' :: jpad d ++ ['\x7d'])
      else
        '\x7b' :: (serObjItems pretty (d + 1) fs ++ ['\x7d'])

/-- The comma-separated array items, each (in pretty mode) on its own line
at indentation `d`. -/
def serArrItems (pretty : Bool) (d : Nat) : JsonList → List Char
  | .nil => []
  | .cons x xs =>
    (if pretty then jpad d ++ serJson pretty d x else serJson pretty d x) ++
      (match xs with
       | .nil => []
       | .cons _ _ => if pretty then [',', '\n'] else [',']) ++
      serArrItems pretty d xs

/-- The comma-separated object entries, `"key": value` in pretty mode and
`"key":value` in compact mode. -/
def serObjItems (pretty : Bool) (d : Nat) : JsonFields → List Char
  | .nil => []
  | .cons k v fs =>
    (if pretty then jpad d ++ jsonQuote k ++ ':' :: ' ' :: serJson pretty d v
     else jsonQuote k ++ ':' :: serJson pretty d v) ++
      (match fs with
       | .nil => []
       | .cons _ _ _ => if pretty then [',', '\n'] else [',']) ++
      serObjItems pretty d fs
end

/-- `JSON.stringify v` as a `String`. -/
def jsonStringify (pretty : Bool) (j : Json) : String := ⟨serJson pretty 0 j⟩

example :
    jsonStringify false (.obj (.cons "a" (.num 1) (.cons "b" (.arr (jl [.num 1, .jnull])) .nil))) =
      "\x7b\"a\":1,\"b\":[1,null]\x7d" := by decide

example :
    jsonStringify true (.obj (.cons "a" (.num 1) (.cons "b" (.arr (jl [.num 1, .jnull])) .nil))) =
      "\x7b\n  \"a\": 1,\n  \"b\": [\n    1,\n    null\n  ]\n\x7d" := by decide

/-! ### `JSON.parse` -/

/-- JSON insignificant whitespace (RFC 8259): space, tab, newline, carriage
return.  (Narrower than the JS regex class `\s`.) -/
def isJsonWs (c : Char) : Bool :=
  c = ' ' || c = '\t' || c = '\n' || c = '\r'

/-- Skip insignificant whitespace. -/
def skipWs (cs : List Char) : List Char := cs.dropWhile isJsonWs

/-- Value of one hexadecimal digit. -/
def hexVal (c : Char) : Option Nat :=
  if '0' ≤ c && c ≤ '9' then some (c.toNat - 48)
  else if 'a' ≤ c && c ≤ 'f' then some (c.toNat - 87)
  else if 'A' ≤ c && c ≤ 'F' then some (c.toNat - 55)
  else none

/-- Decode the four hex digits of a `\uXXXX` escape.  Escapes denoting
surrogate halves are outside the model (Lean `Char` is a Unicode scalar
value; the application never serializes them). -/
def unescapeU : List Char → Option (Char × List Char)
  | h1 :: h2 :: h3 :: h4 :: r =>
    match hexVal h1, hexVal h2, hexVal h3, hexVal h4 with
    | some a, some b, some c, some d =>
      let v := ((a * 16 + b) * 16 + c) * 16 + d
      if 0xd800 ≤ v ∧ v ≤ 0xdfff then none else some (Char.ofNat v, r)
    | _, _, _, _ => none
  | _ => none

/-- Decode one escape sequence (the backslash already consumed). -/
def unescape : List Char → Option (Char × List Char)
  | [] => none
  | c :: r =>
    if c = '"' then some ('"', r)
    else if c = '\\' then some ('\\', r)
    else if c = '/' then some ('/', r)
    else if c = 'b' then some ('\x08', r)
    else if c = 'f' then some ('\x0c', r)
    else if c = 'n' then some ('\n', r)
    else if c = 'r' then some ('\r', r)
    else if c = 't' then some ('\t', r)
    else if c = 'u' then unescapeU r
    else none

/-- Parse the body of a JSON string literal (the opening quote already
consumed).  The fuel only serves the termination argument; callers pass
`input length + 1`, which always suffices since every step consumes at
least one character. -/
def pStrAux : Nat → List Char → List Char → Option (List Char × List Char)
  | 0, _, _ => none
  | _ + 1, _, [] => none
  | fuel + 1, acc, c :: cs =>
    if c = '"' then some (acc.reverse, cs)
    else if c = '\\' then
      match unescape cs with
      | some (ch, r) => pStrAux fuel (ch :: acc) r
      | none => none
    else if c.toNat < 0x20 then none
    else pStrAux fuel (c :: acc) cs

/-- Decimal value of a digit character. -/
def digVal (c : Char) : Nat := c.toNat - 48

/-- Consume a run of decimal digits, accumulating their value. -/
def pDigits : Nat → List Char → Nat × List Char
  | acc, [] => (acc, [])
  | acc, c :: cs =>
    if c.isDigit then pDigits (10 * acc + digVal c) cs else (acc, c :: cs)

/-- After a number: reject a fraction or exponent (outside the model; every
number this application serializes is a natural-number literal). -/
def numTailOk : List Char → Bool
  | [] => true
  | d :: _ => !(d = '.' || d = 'e' || d = 'E')

/-- After a bare zero: additionally reject further digits (leading zeros are
invalid JSON). -/
def numTailOk0 : List Char → Bool
  | [] => true
  | d :: _ => !(d.isDigit || d = '.' || d = 'e' || d = 'E')

/-- Parse a JSON number.  Restricted to natural-number literals: a minus
sign, fraction or exponent is rejected (see header). -/
def pNum : List Char → Option (Nat × List Char)
  | [] => none
  | c :: cs =>
    if c = '0' then (if numTailOk0 cs then some (0, cs) else none)
    else if c.isDigit then
      match pDigits (digVal c) cs with
      | (n, rest) => if numTailOk rest then some (n, rest) else none
    else none

/-- Expect the given literal characters. -/
def expectLit : List Char → List Char → Option (List Char)
  | [], cs => some cs
  | _ :: _, [] => none
  | l :: ls, c :: cs => if c = l then expectLit ls cs else none

mutual
/-- Fuel-indexed recursive-descent JSON value parser. -/
def pVal : Nat → List Char → Option (Json × List Char)
  | 0, _ => none
  | fuel + 1, cs =>
    match skipWs cs with
    | [] => none
    | c :: rest =>
      if c = '"' then
        match pStrAux (rest.length + 1) [] rest with
        | some (body, r) => some (.str ⟨body⟩, r)
        | none => none
      else if c = '[' then
        match skipWs rest with
        | [] => pArrItems fuel []
        | d :: r2 => if d = ']' then some (.arr .nil, r2) else pArrItems fuel (d :: r2)
      else if c = '\x7b' then
        match skipWs rest with
        | [] => pObjItems fuel []
        | d :: r2 => if d = '\x7d' then some (.obj .nil, r2) else pObjItems fuel (d :: r2)
      else if c = 't' then
        match expectLit ['r', 'u', 'e'] rest with
        | some r => some (.jbool true, r)
        | none => none
      else if c = 'f' then
        match expectLit ['a', 'l', 's', 'e'] rest with
        | some r => some (.jbool false, r)
        | none => none
      else if c = 'n' then
        match expectLit ['u', 'l', 'l'] rest with
        | some r => some (.jnull, r)
        | none => none
      else
        match pNum (c :: rest) with
        | some (n, r) => some (.num n, r)
        | none => none

/-- Parse the items of a non-empty array, including the closing bracket. -/
def pArrItems : Nat → List Char → Option (Json × List Char)
  | 0, _ => none
  | fuel + 1, cs =>
    match pVal fuel cs with
    | none => none
    | some (v, rest) =>
      match skipWs rest with
      | [] => none
      | d :: r2 =>
        if d = ',' then
          match pArrItems fuel r2 with
          | some (.arr vs, r3) => some (.arr (.cons v vs), r3)
          | _ => none
        else if d = ']' then some (.arr (.cons v .nil), r2)
        else none

/-- Parse the entries of a non-empty object, including the closing brace. -/
def pObjItems : Nat → List Char → Option (Json × List Char)
  | 0, _ => none
  | fuel + 1, cs =>
    match skipWs cs with
    | [] => none
    | c :: r1 =>
      if c = '"' then
        match pStrAux (r1.length + 1) [] r1 with
        | some (kcs, r2) =>
          (match skipWs r2 with
           | [] => none
           | d :: r3 =>
             if d = ':' then
               match pVal fuel r3 with
               | some (v, r4) =>
                 (match skipWs r4 with
                  | [] => none
                  | e :: r5 =>
                    if e = ',' then
                      match pObjItems fuel r5 with
                      | some (.obj fs, r6) => some (.obj (.cons ⟨kcs⟩ v fs), r6)
                      | _ => none
                    else if e = '\x7d' then some (.obj (.cons ⟨kcs⟩ v .nil), r5)
                    else none)
               | none => none
             else none)
        | none => none
      else none
end

/-- `JSON.parse`: parse one value, then require only whitespace to remain.
Returns `none` where `JSON.parse` throws (the source always wraps the call
in `try`/`catch`). -/
def jsonParse (s : String) : Option Json :=
  match pVal (s.length + 1) s.data with
  | some (j, rest) => if (skipWs rest).isEmpty then some j else none
  | none => none

example :
    jsonParse "\x7b\n  \"a\": 1,\n  \"b\": [\n    1,\n    null\n  ]\n\x7d" =
      some (.obj (.cons "a" (.num 1) (.cons "b" (.arr (jl [.num 1, .jnull])) .nil))) := by
  decide
example : jsonParse "\x7b\"a\":\"x\\n\\\"y\",\"b\":true\x7d" =
    some (.obj (.cons "a" (.str "x\n\"y") (.cons "b" (.jbool true) .nil))) := by decide
example : jsonParse "\x7b\"a\": " = none := by decide
example : jsonParse "" = none := by decide
example : jsonParse "[1,2] x" = none := by decide
example : jsonParse " [1,\x7b\x7d,[]] " = some (.arr (jl [.num 1, .obj .nil, .arr .nil])) := by
  decide

/-! ### Round-trip: `JSON.parse` inverts `JSON.stringify` -/

theorem hexVal_hexDigit {x : Nat} (h : x < 16) : hexVal (hexDigit x) = some x := by
  interval_cases x <;> decide

theorem pStrAux_escape (cs : List Char) : ∀ (fuel : Nat) (acc rest : List Char),
    (cs.map jsonEscapeChar).flatten.length < fuel →
    pStrAux fuel acc ((cs.map jsonEscapeChar).flatten ++ '"' :: rest) =
      some (acc.reverse ++ cs, rest) := by
  induction cs with
  | nil =>
    intro fuel acc rest hf
    match fuel, hf with
    | f + 1, _ => simp [pStrAux]
  | cons c cs ih =>
    intro fuel acc rest hf
    simp only [List.map_cons, List.flatten_cons, List.length_append] at hf ⊢
    by_cases h1 : c = '"'
    · subst h1
      match fuel, hf with
      | f + 1, hf =>
        have hlen : (cs.map jsonEscapeChar).flatten.length < f := by
          have hel : (jsonEscapeChar '"').length = 2 := rfl
          omega
        simp [show jsonEscapeChar '"' = ['\\', '"'] from rfl, pStrAux, unescape,
          ih f ('"' :: acc) rest hlen]
    · by_cases h2 : c = '\\'
      · subst h2
        match fuel, hf with
        | f + 1, hf =>
          have hlen : (cs.map jsonEscapeChar).flatten.length < f := by
            have hel : (jsonEscapeChar '\\').length = 2 := rfl
            omega
          simp [show jsonEscapeChar '\\' = ['\\', '\\'] from rfl, pStrAux, unescape,
            ih f ('\\' :: acc) rest hlen]
      · by_cases h3 : c = '\x08'
        · subst h3
          match fuel, hf with
          | f + 1, hf =>
            have hlen : (cs.map jsonEscapeChar).flatten.length < f := by
              have hel : (jsonEscapeChar '\x08').length = 2 := rfl
              omega
            simp [show jsonEscapeChar '\x08' = ['\\', 'b'] from rfl, pStrAux, unescape,
              ih f ('\x08' :: acc) rest hlen]
        · by_cases h4 : c = '\t'
          · subst h4
            match fuel, hf with
            | f + 1, hf =>
              have hlen : (cs.map jsonEscapeChar).flatten.length < f := by
                have hel : (jsonEscapeChar '\t').length = 2 := rfl
                omega
              simp [show jsonEscapeChar '\t' = ['\\', 't'] from rfl, pStrAux, unescape,
                ih f ('\t' :: acc) rest hlen]
          · by_cases h5 : c = '\n'
            · subst h5
              match fuel, hf with
              | f + 1, hf =>
                have hlen : (cs.map jsonEscapeChar).flatten.length < f := by
                  have hel : (jsonEscapeChar '\n').length = 2 := rfl
                  omega
                simp [show jsonEscapeChar '\n' = ['\\', 'n'] from rfl, pStrAux, unescape,
                  ih f ('\n' :: acc) rest hlen]
            · by_cases h6 : c = '\x0c'
              · subst h6
                match fuel, hf with
                | f + 1, hf =>
                  have hlen : (cs.map jsonEscapeChar).flatten.length < f := by
                    have hel : (jsonEscapeChar '\x0c').length = 2 := rfl
                    omega
                  simp [show jsonEscapeChar '\x0c' = ['\\', 'f'] from rfl, pStrAux, unescape,
                    ih f ('\x0c' :: acc) rest hlen]
              · by_cases h7 : c = '\r'
                · subst h7
                  match fuel, hf with
                  | f + 1, hf =>
                    have hlen : (cs.map jsonEscapeChar).flatten.length < f := by
                      have hel : (jsonEscapeChar '\r').length = 2 := rfl
                      omega
                    simp [show jsonEscapeChar '\r' = ['\\', 'r'] from rfl, pStrAux, unescape,
                      ih f ('\r' :: acc) rest hlen]
                · by_cases h8 : c.toNat < 0x20
                  · have hesc : jsonEscapeChar c =
                        ['\\', 'u', '0', '0', hexDigit (c.toNat / 16), hexDigit (c.toNat % 16)] := by
                      simp [jsonEscapeChar, h1, h2, h3, h4, h5, h6, h7, h8]
                    match fuel, hf with
                    | f + 1, hf =>
                      have hlen : (cs.map jsonEscapeChar).flatten.length < f := by
                        rw [hesc] at hf
                        simp only [List.length_cons, List.length_nil] at hf
                        omega
                      have hhi : hexVal (hexDigit (c.toNat / 16)) = some (c.toNat / 16) :=
                        hexVal_hexDigit (by omega)
                      have hlo : hexVal (hexDigit (c.toNat % 16)) = some (c.toNat % 16) :=
                        hexVal_hexDigit (by omega)
                      have hv : ((0 * 16 + 0) * 16 + c.toNat / 16) * 16 + c.toNat % 16 =
                          c.toNat := by omega
                      rw [hesc]
                      simp only [List.cons_append, List.nil_append]
                      rw [show pStrAux (f + 1) acc ('\\' :: 'u' :: '0' :: '0' ::
                          hexDigit (c.toNat / 16) :: hexDigit (c.toNat % 16) ::
                          ((cs.map jsonEscapeChar).flatten ++ '"' :: rest)) =
                          (match unescapeU ('0' :: '0' :: hexDigit (c.toNat / 16) ::
                              hexDigit (c.toNat % 16) ::
                              ((cs.map jsonEscapeChar).flatten ++ '"' :: rest)) with
                          | some (ch, r) => pStrAux f (ch :: acc) r
                          | none => none) from by simp [pStrAux, unescape]]
                      rw [show unescapeU ('0' :: '0' :: hexDigit (c.toNat / 16) ::
                          hexDigit (c.toNat % 16) ::
                          ((cs.map jsonEscapeChar).flatten ++ '"' :: rest)) =
                          some (c, (cs.map jsonEscapeChar).flatten ++ '"' :: rest) from by
                        simp only [unescapeU, show hexVal '0' = some 0 from rfl, hhi, hlo]
                        rw [show ((0 * 16 + 0) * 16 + c.toNat / 16) * 16 + c.toNat % 16 =
                            c.toNat from by omega]
                        rw [if_neg (by omega), Char.ofNat_toNat]]
                      simp [ih f (c :: acc) rest hlen]
                  · have hesc : jsonEscapeChar c = [c] := by
                      simp [jsonEscapeChar, h1, h2, h3, h4, h5, h6, h7, h8]
                    match fuel, hf with
                    | f + 1, hf =>
                      have hlen : (cs.map jsonEscapeChar).flatten.length < f := by
                        rw [hesc] at hf
                        simp only [List.length_cons, List.length_nil] at hf
                        omega
                      rw [hesc]
                      simp only [List.cons_append, List.nil_append]
                      rw [show pStrAux (f + 1) acc
                          (c :: ((cs.map jsonEscapeChar).flatten ++ '"' :: rest)) =
                          pStrAux f (c :: acc) ((cs.map jsonEscapeChar).flatten ++ '"' :: rest)
                        from by simp [pStrAux, h1, h2, h8]]
                      simp [ih f (c :: acc) rest hlen]

theorem digVal_digitChar {m : Nat} (h : m < 10) : digVal (Char.ofNat (48 + m)) = m := by
  interval_cases m <;> decide

theorem isDigit_digitChar {m : Nat} (h : m < 10) : (Char.ofNat (48 + m)).isDigit = true := by
  interval_cases m <;> decide

theorem digitChar_ne_zero {m : Nat} (h1 : 1 ≤ m) (h : m < 10) :
    ¬(Char.ofNat (48 + m) = '0') := by
  interval_cases m <;> decide

theorem natToStrAux_append : ∀ (fuel n : Nat) (acc : List Char),
    natToStrAux fuel n acc = natToStrAux fuel n [] ++ acc := by
  intro fuel
  induction fuel with
  | zero => intro n acc; simp [natToStrAux]
  | succ f ih =>
    intro n acc
    by_cases h : n < 10
    · simp [natToStrAux, h]
    · simp only [natToStrAux, if_neg h]
      rw [ih (n / 10) (Char.ofNat (48 + n % 10) :: acc),
        ih (n / 10) [Char.ofNat (48 + n % 10)], List.append_assoc]
      rfl

theorem natToStrAux_step (f n : Nat) (acc : List Char) (h : ¬ n < 10) :
    natToStrAux (f + 1) n acc = natToStrAux f (n / 10) (Char.ofNat (48 + n % 10) :: acc) := by
  simp only [natToStrAux, if_neg h]

theorem natToStrAux_small (f n : Nat) (acc : List Char) (h : n < 10) :
    natToStrAux (f + 1) n acc = Char.ofNat (48 + n) :: acc := by
  simp only [natToStrAux, if_pos h, Nat.mod_eq_of_lt h]

theorem natToStrAux_fuel (n : Nat) : ∀ (f g : Nat), n < 10 ^ (f + 1) → n < 10 ^ (g + 1) →
    natToStrAux (f + 1) n [] = natToStrAux (g + 1) n [] := by
  induction n using Nat.strong_induction_on with
  | _ n ih =>
    intro f g hf hg
    by_cases h : n < 10
    · rw [natToStrAux_small f n [] h, natToStrAux_small g n [] h]
    · match f, g with
      | 0, _ => exact absurd hf (by simpa using h)
      | _, 0 => exact absurd hg (by simpa using h)
      | f' + 1, g' + 1 =>
        rw [natToStrAux_step (f' + 1) n [] h, natToStrAux_step (g' + 1) n [] h,
          natToStrAux_append (f' + 1) (n / 10), natToStrAux_append (g' + 1) (n / 10)]
        have hdiv : n / 10 < n := Nat.div_lt_self (by omega) (by omega)
        rw [ih (n / 10) hdiv f' g'
          (Nat.div_lt_of_lt_mul (by rw [← pow_succ']; exact hf))
          (Nat.div_lt_of_lt_mul (by rw [← pow_succ']; exact hg))]

theorem lt_pow10_succ (k : Nat) : k < 10 ^ (k + 1) :=
  lt_of_lt_of_le (Nat.lt_pow_self (by omega) k) (Nat.pow_le_pow_right (by omega) (by omega))

theorem natToStr_small {n : Nat} (h : n < 10) :
    (natToStr n).data = [Char.ofNat (48 + n)] :=
  natToStrAux_small n n [] h

theorem natToStr_rec {n : Nat} (h : 10 ≤ n) :
    (natToStr n).data = (natToStr (n / 10)).data ++ [Char.ofNat (48 + n % 10)] := by
  show natToStrAux (n + 1) n [] = natToStrAux (n / 10 + 1) (n / 10) [] ++ _
  match n, h with
  | m + 1, h =>
    rw [natToStrAux_step (m + 1) (m + 1) [] (by omega),
      natToStrAux_append (m + 1) ((m + 1) / 10)]
    congr 1
    exact natToStrAux_fuel ((m + 1) / 10) m ((m + 1) / 10)
      (lt_of_le_of_lt (by omega) (lt_pow10_succ m))
      (lt_pow10_succ ((m + 1) / 10))

theorem natToStr_ne_nil (n : Nat) : (natToStr n).data ≠ [] := by
  by_cases h : n < 10
  · rw [natToStr_small h]; simp
  · rw [natToStr_rec (by omega)]; simp

theorem natToStr_digits (n : Nat) : ∀ c ∈ (natToStr n).data, c.isDigit = true := by
  induction n using Nat.strong_induction_on with
  | _ n ih =>
    by_cases h : n < 10
    · rw [natToStr_small h]
      intro c hc
      simp at hc
      subst hc
      exact isDigit_digitChar h
    · rw [natToStr_rec (by omega)]
      intro c hc
      rcases List.mem_append.1 hc with hc | hc
      · exact ih (n / 10) (Nat.div_lt_self (by omega) (by omega)) c hc
      · simp at hc
        subst hc
        exact isDigit_digitChar (Nat.mod_lt _ (by omega))

theorem natToStr_head {n : Nat} (h : 1 ≤ n) : (natToStr n).data.head? ≠ some '0' := by
  induction n using Nat.strong_induction_on with
  | _ n ih =>
    by_cases hlt : n < 10
    · rw [natToStr_small hlt]
      simpa using digitChar_ne_zero h hlt
    · rw [natToStr_rec (by omega)]
      rw [List.head?_append_of_ne_nil _ (natToStr_ne_nil (n / 10))]
      exact ih (n / 10) (Nat.div_lt_self (by omega) (by omega)) (Nat.one_le_div_iff (by omega) |>.2 (by omega))

theorem natToStr_foldl (n : Nat) : ∀ acc : Nat,
    (natToStr n).data.foldl (fun a c => 10 * a + digVal c) acc =
      acc * 10 ^ (natToStr n).data.length + n := by
  induction n using Nat.strong_induction_on with
  | _ n ih =>
    intro acc
    by_cases h : n < 10
    · rw [natToStr_small h]
      simp [digVal_digitChar h]
      ring
    · rw [natToStr_rec (by omega)]
      rw [List.foldl_append]
      rw [ih (n / 10) (Nat.div_lt_self (by omega) (by omega)) acc]
      simp [digVal_digitChar (Nat.mod_lt n (by omega : 0 < 10))]
      rw [pow_succ]
      have hdm : 10 * (n / 10) + n % 10 = n := by omega
      calc 10 * (acc * 10 ^ (natToStr (n / 10)).length + n / 10) + n % 10
          = acc * (10 ^ (natToStr (n / 10)).length * 10) + (10 * (n / 10) + n % 10) := by
            ring
        _ = _ := by rw [hdm]

/-- The rest of the input begins with none of digit, `.`, `e`, `E` —
the condition under which a serialized number is parsed back exactly. -/
def NumSep : List Char → Prop
  | [] => True
  | d :: _ => d.isDigit = false ∧ d ≠ '.' ∧ d ≠ 'e' ∧ d ≠ 'E'

theorem pDigits_run : ∀ (ds : List Char) (rest : List Char) (acc : Nat),
    (∀ c ∈ ds, c.isDigit = true) → NumSep rest →
    pDigits acc (ds ++ rest) = (ds.foldl (fun a c => 10 * a + digVal c) acc, rest) := by
  intro ds
  induction ds with
  | nil =>
    intro rest acc _ hrest
    match rest, hrest with
    | [], _ => rfl
    | d :: rest, hrest => simp [pDigits, hrest.1]
  | cons c ds ih =>
    intro rest acc hds hrest
    simp only [List.cons_append, pDigits, hds c (by simp), if_true, List.foldl_cons]
    exact ih rest _ (fun x hx => hds x (by simp [hx])) hrest

theorem pNum_natToStr (n : Nat) (rest : List Char) (hrest : NumSep rest) :
    pNum ((natToStr n).data ++ rest) = some (n, rest) := by
  by_cases hn : n = 0
  · subst hn
    rw [show (natToStr 0).data = ['0'] from rfl]
    match rest, hrest with
    | [], _ => rfl
    | d :: rest, hrest => simp [pNum, numTailOk0, hrest.1, hrest.2.1, hrest.2.2.1, hrest.2.2.2]
  · have hhead := natToStr_head (by omega : 1 ≤ n)
    have hdig := natToStr_digits n
    match hdata : (natToStr n).data, natToStr_ne_nil n with
    | c :: cs, _ =>
      rw [hdata] at hhead hdig
      have hc : c.isDigit = true := hdig c (by simp)
      have hc0 : ¬(c = '0') := by simpa using hhead
      simp only [List.cons_append, pNum, if_neg hc0, hc, if_true]
      rw [pDigits_run cs rest (digVal c) (fun x hx => hdig x (by simp [hx])) hrest]
      have hfold := natToStr_foldl n 0
      rw [hdata] at hfold
      simp only [List.foldl_cons, Nat.mul_zero, Nat.zero_add] at hfold
      rw [hfold]
      match rest, hrest with
      | [], _ => simp [numTailOk]
      | d :: rest, hrest => simp [numTailOk, hrest.2.1, hrest.2.2.1, hrest.2.2.2]

mutual
/-- Fuel weight of a JSON value: an upper bound on the parser fuel its
serialization consumes. -/
def jweight : Json → Nat
  | .str _ => 1
  | .num _ => 1
  | .jbool _ => 1
  | .jnull => 1
  | .arr xs => 1 + lweight xs
  | .obj fs => 1 + fweight fs

/-- Fuel weight of array items. -/
def lweight : JsonList → Nat
  | .nil => 0
  | .cons x xs => 1 + jweight x + lweight xs

/-- Fuel weight of object entries. -/
def fweight : JsonFields → Nat
  | .nil => 0
  | .cons _ v fs => 1 + jweight v + fweight fs
end

/-- Every character of the list is JSON whitespace. -/
def AllWs (ws : List Char) : Prop := ∀ c ∈ ws, isJsonWs c = true

theorem skipWs_append {ws : List Char} (cs : List Char) (h : AllWs ws) :
    skipWs (ws ++ cs) = skipWs cs := by
  induction ws with
  | nil => rfl
  | cons w ws ih =>
    simp only [List.cons_append, skipWs, List.dropWhile_cons, h w (by simp)]
    exact ih fun c hc => h c (by simp [hc])

theorem skipWs_cons {c : Char} (cs : List Char) (h : isJsonWs c = false) :
    skipWs (c :: cs) = c :: cs := by
  simp [skipWs, List.dropWhile_cons, h]

theorem skipWs_decomp (cs : List Char) :
    ∃ lws, cs = lws ++ skipWs cs ∧ AllWs lws := by
  refine ⟨cs.takeWhile isJsonWs, (List.takeWhile_append_dropWhile isJsonWs cs).symm, ?_⟩
  intro c hc
  exact List.mem_takeWhile_imp hc

theorem allWs_jpad (d : Nat) : AllWs (jpad d) := by
  intro c hc
  simp [jpad] at hc
  simp [hc.2, isJsonWs]

theorem pVal_ws {f : Nat} {ws : List Char} (cs : List Char) (h : AllWs ws) :
    pVal f (ws ++ cs) = pVal f cs := by
  match f with
  | 0 => rfl
  | f + 1 =>
    simp only [pVal]
    rw [skipWs_append cs h]

theorem pArrItems_ws {f : Nat} {ws : List Char} (cs : List Char) (h : AllWs ws) :
    pArrItems (f + 1) (ws ++ cs) = pArrItems (f + 1) cs := by
  simp only [pArrItems]
  rw [pVal_ws cs h]

theorem pObjItems_ws {f : Nat} {ws : List Char} (cs : List Char) (h : AllWs ws) :
    pObjItems (f + 1) (ws ++ cs) = pObjItems (f + 1) cs := by
  simp only [pObjItems]
  rw [skipWs_append cs h]

theorem isDigit_toNat {c : Char} (h : c.isDigit = true) : 48 ≤ c.toNat ∧ c.toNat ≤ 57 := by
  simp only [Char.isDigit, ge_iff_le, Bool.and_eq_true, decide_eq_true_eq] at h
  exact ⟨h.1, h.2⟩

theorem isDigit_eq_ofNat {c : Char} (h : c.isDigit = true) :
    ∃ k, 48 ≤ k ∧ k ≤ 57 ∧ c = Char.ofNat k :=
  ⟨c.toNat, (isDigit_toNat h).1, (isDigit_toNat h).2, (Char.ofNat_toNat c).symm⟩

theorem isDigit_facts {c : Char} (h : c.isDigit = true) :
    ¬c = '"' ∧ ¬c = '[' ∧ ¬c = '\x7b' ∧ ¬c = 't' ∧ ¬c = 'f' ∧ ¬c = 'n' ∧
      isJsonWs c = false := by
  obtain ⟨k, hk1, hk2, rfl⟩ := isDigit_eq_ofNat h
  interval_cases k <;> exact ⟨by decide, by decide, by decide, by decide, by decide,
    by decide, by decide⟩

theorem pArrItems_succ (f : Nat) (cs : List Char) :
    pArrItems (f + 1) cs =
      (match pVal f cs with
      | none => none
      | some (v, rest) =>
        match skipWs rest with
        | [] => none
        | d :: r2 =>
          if d = ',' then
            match pArrItems f r2 with
            | some (.arr vs, r3) => some (.arr (.cons v vs), r3)
            | _ => none
          else if d = ']' then some (.arr (.cons v .nil), r2)
          else none) := by
  simp only [pArrItems]

theorem pObjItems_succ (f : Nat) (cs : List Char) :
    pObjItems (f + 1) cs =
      (match skipWs cs with
      | [] => none
      | c :: r1 =>
        if c = '"' then
          match pStrAux (r1.length + 1) [] r1 with
          | some (kcs, r2) =>
            (match skipWs r2 with
             | [] => none
             | d :: r3 =>
               if d = ':' then
                 match pVal f r3 with
                 | some (v, r4) =>
                   (match skipWs r4 with
                    | [] => none
                    | e :: r5 =>
                      if e = ',' then
                        match pObjItems f r5 with
                        | some (.obj fs, r6) => some (.obj (.cons ⟨kcs⟩ v fs), r6)
                        | _ => none
                      else if e = '\x7d' then some (.obj (.cons ⟨kcs⟩ v .nil), r5)
                      else none)
                 | none => none
               else none)
          | none => none
        else none) := by
  simp only [pObjItems]

theorem jweight_pos (j : Json) : 1 ≤ jweight j := by
  cases j <;> simp [jweight]

theorem expectLit_run : ∀ (lit rest : List Char), expectLit lit (lit ++ rest) = some rest := by
  intro lit
  induction lit with
  | nil => intro rest; rfl
  | cons l ls ih => intro rest; simp [expectLit, ih]

/-- JSON whitespace characters are not digits and not number-tail characters. -/
theorem jsonWs_numFacts {c : Char} (h : isJsonWs c = true) :
    c.isDigit = false ∧ ¬c = '.' ∧ ¬c = 'e' ∧ ¬c = 'E' := by
  simp only [isJsonWs, Bool.or_eq_true, decide_eq_true_eq] at h
  rcases h with ((h | h) | h) | h <;> subst h <;>
    exact ⟨by decide, by decide, by decide, by decide⟩

theorem numSep_ws_close {ws : List Char} (h : AllWs ws) {c : Char}
    (hc : c.isDigit = false ∧ ¬c = '.' ∧ ¬c = 'e' ∧ ¬c = 'E') (rest : List Char) :
    NumSep (ws ++ c :: rest) := by
  match ws with
  | [] => exact hc
  | w :: ws => exact jsonWs_numFacts (h w (by simp))

/-- The first character of any serialized JSON value: never whitespace and
never a closing bracket, brace or comma. -/
theorem serJson_head (pretty : Bool) (d : Nat) (j : Json) :
    ∃ c cs, serJson pretty d j = c :: cs ∧ isJsonWs c = false ∧ ¬c = ']' ∧ ¬c = '\x7d' := by
  cases j with
  | str s => refine ⟨'"', _, rfl, ?_, ?_, ?_⟩ <;> decide
  | num n =>
    match hdata : (natToStr n).data, natToStr_ne_nil n with
    | c :: cs, _ =>
      have hdig := natToStr_digits n c (by rw [hdata]; simp)
      obtain ⟨k, hk1, hk2, rfl⟩ := isDigit_eq_ofNat hdig
      refine ⟨Char.ofNat k, cs, ?_, ?_, ?_, ?_⟩
      · show natToStrAux (n + 1) n [] = _
        exact hdata
      · interval_cases k <;> decide
      · interval_cases k <;> decide
      · interval_cases k <;> decide
  | jbool b => cases b with
    | true => refine ⟨'t', _, rfl, ?_, ?_, ?_⟩ <;> decide
    | false => refine ⟨'f', _, rfl, ?_, ?_, ?_⟩ <;> decide
  | jnull => refine ⟨'n', _, rfl, ?_, ?_, ?_⟩ <;> decide
  | arr xs =>
    cases xs with
    | nil => refine ⟨'[', _, rfl, ?_, ?_, ?_⟩ <;> decide
    | cons x xs =>
      cases pretty with
      | true => refine ⟨'[', _, rfl, ?_, ?_, ?_⟩ <;> decide
      | false => refine ⟨'[', _, rfl, ?_, ?_, ?_⟩ <;> decide
  | obj fs =>
    cases fs with
    | nil => refine ⟨'\x7b', _, rfl, ?_, ?_, ?_⟩ <;> decide
    | cons k v fs =>
      cases pretty with
      | true => refine ⟨'\x7b', _, rfl, ?_, ?_, ?_⟩ <;> decide
      | false => refine ⟨'\x7b', _, rfl, ?_, ?_, ?_⟩ <;> decide

/-- The separator emitted after an array item, depending on whether more
items follow. -/
def asep (pretty : Bool) : JsonList → List Char
  | .nil => []
  | .cons _ _ => if pretty then [',', '\n'] else [',']

/-- The separator emitted after an object entry. -/
def fsep (pretty : Bool) : JsonFields → List Char
  | .nil => []
  | .cons _ _ _ => if pretty then [',', '\n'] else [',']

theorem serArrItems_cons (pretty : Bool) (d : Nat) (x : Json) (xs : JsonList) :
    serArrItems pretty d (.cons x xs) =
      (if pretty then jpad d ++ serJson pretty d x else serJson pretty d x) ++
        (asep pretty xs ++ serArrItems pretty d xs) := by
  cases xs <;> simp only [serArrItems, asep] <;> rw [List.append_assoc]

theorem serObjItems_cons (pretty : Bool) (d : Nat) (k : String) (v : Json) (fs : JsonFields) :
    serObjItems pretty d (.cons k v fs) =
      (if pretty then jpad d ++ jsonQuote k ++ ':' :: ' ' :: serJson pretty d v
       else jsonQuote k ++ ':' :: serJson pretty d v) ++
        (fsep pretty fs ++ serObjItems pretty d fs) := by
  cases fs <;> simp only [serObjItems, fsep] <;> rw [List.append_assoc]

theorem parser_master : ∀ fuel : Nat,
    (∀ (j : Json) (pretty : Bool) (d : Nat) (rest : List Char), jweight j ≤ fuel →
      (∀ n, j = Json.num n → NumSep rest) →
      pVal fuel (serJson pretty d j ++ rest) = some (j, rest)) ∧
    (∀ (x : Json) (xs : JsonList) (pretty : Bool) (d : Nat) (ws rest : List Char),
      1 + jweight x + lweight xs ≤ fuel → AllWs ws →
      pArrItems fuel (serArrItems pretty d (.cons x xs) ++ (ws ++ ']' :: rest)) =
        some (.arr (.cons x xs), rest)) ∧
    (∀ (k : String) (v : Json) (fs : JsonFields) (pretty : Bool) (d : Nat)
        (ws rest : List Char),
      1 + jweight v + fweight fs ≤ fuel → AllWs ws →
      pObjItems fuel (serObjItems pretty d (.cons k v fs) ++ (ws ++ '\x7d' :: rest)) =
        some (.obj (.cons k v fs), rest)) := by
  intro fuel
  induction fuel using Nat.strong_induction_on with
  | _ fuel ih =>
    refine ⟨?_, ?_, ?_⟩
    · intro j pretty d rest hw hg
      obtain ⟨f, rfl⟩ : ∃ f, fuel = f + 1 :=
        ⟨fuel - 1, by have := le_trans (jweight_pos j) hw; omega⟩
      cases j with
      | str s =>
        rw [show serJson pretty d (.str s) ++ rest =
            '"' :: ((s.data.map jsonEscapeChar).flatten ++ '"' :: rest) from by
          simp [serJson, jsonQuote]]
        simp only [pVal]
        rw [skipWs_cons _ (by decide)]
        simp only [pStrAux_escape s.data
            (((s.data.map jsonEscapeChar).flatten ++ '"' :: rest).length + 1) [] rest
            (by simp [List.length_append]; omega),
          reduceIte, List.reverse_nil, List.nil_append]
      | num n =>
        have hsep : NumSep rest := hg n rfl
        match hdata : (natToStr n).data, natToStr_ne_nil n with
        | c :: cs, _ =>
          have hdig : c.isDigit = true := natToStr_digits n c (by rw [hdata]; simp)
          obtain ⟨hq, hbr, hbc, ht, hf2, hn2, hws⟩ := isDigit_facts hdig
          rw [show serJson pretty d (.num n) ++ rest = c :: (cs ++ rest) from by
            rw [show serJson pretty d (.num n) = (natToStr n).data from rfl, hdata]; simp]
          simp only [pVal]
          rw [skipWs_cons _ hws]
          simp only [if_neg hq, if_neg hbr, if_neg hbc, if_neg ht, if_neg hf2, if_neg hn2]
          rw [show c :: (cs ++ rest) = (natToStr n).data ++ rest from by rw [hdata]; simp,
            pNum_natToStr n rest hsep]
      | jbool b =>
        cases b with
        | true =>
          rw [show serJson pretty d (.jbool true) ++ rest =
              't' :: (['r', 'u', 'e'] ++ rest) from rfl]
          simp only [pVal]
          rw [skipWs_cons _ (by decide)]
          simp only [Char.reduceEq, reduceIte, expectLit_run]
        | false =>
          rw [show serJson pretty d (.jbool false) ++ rest =
              'f' :: (['a', 'l', 's', 'e'] ++ rest) from rfl]
          simp only [pVal]
          rw [skipWs_cons _ (by decide)]
          simp only [Char.reduceEq, reduceIte, expectLit_run]
      | jnull =>
        rw [show serJson pretty d Json.jnull ++ rest =
            'n' :: (['u', 'l', 'l'] ++ rest) from rfl]
        simp only [pVal]
        rw [skipWs_cons _ (by decide)]
        simp only [Char.reduceEq, reduceIte, expectLit_run]
      | arr xs =>
        cases xs with
        | nil =>
          rw [show serJson pretty d (.arr .nil) ++ rest = '[' :: (']' :: rest) from by
            simp [serJson]]
          simp only [pVal]
          rw [skipWs_cons _ (by decide)]
          simp only [Char.reduceEq, reduceIte]
          rw [skipWs_cons _ (by decide)]
          simp only [Char.reduceEq, reduceIte]
        | cons x xs =>
          have hwx : 1 + jweight x + lweight xs ≤ f := by
            simp only [jweight, lweight] at hw; omega
          obtain ⟨f', rfl⟩ : ∃ f', f = f' + 1 := ⟨f - 1, by have := jweight_pos x; omega⟩
          obtain ⟨c, cs, hser, hcws, hcbr, hcbc⟩ := serJson_head pretty (d + 1) x
          have harr := (ih (f' + 1) (by omega)).2.1
          have hnlws : AllWs ['\n'] := by
            intro ch hch
            simp at hch
            subst hch
            rfl
          cases pretty with
          | true =>
            have hws2 : AllWs ('\n' :: jpad d) := by
              intro ch hch
              rcases List.mem_cons.1 hch with h | h
              · subst h; rfl
              · exact allWs_jpad d ch h
            rw [show serJson true d (.arr (.cons x xs)) ++ rest =
                '[' :: ('\n' :: (serArrItems true (d + 1) (.cons x xs) ++
                  (('\n' :: jpad d) ++ (']' :: rest)))) from by
              simp [serJson, List.append_assoc]]
            simp only [pVal]
            rw [skipWs_cons _ (by decide)]
            simp only [Char.reduceEq, reduceIte]
            have hskip : skipWs ('\n' :: (serArrItems true (d + 1) (.cons x xs) ++
                (('\n' :: jpad d) ++ (']' :: rest)))) =
                c :: (cs ++ ((asep true xs ++ serArrItems true (d + 1) xs) ++
                  (('\n' :: jpad d) ++ (']' :: rest)))) := by
              rw [show ('\n' :: (serArrItems true (d + 1) (.cons x xs) ++
                  (('\n' :: jpad d) ++ (']' :: rest)))) =
                  ['\n'] ++ (serArrItems true (d + 1) (.cons x xs) ++
                  (('\n' :: jpad d) ++ (']' :: rest))) from rfl]
              rw [skipWs_append _ hnlws, serArrItems_cons]
              simp only [if_true]
              rw [List.append_assoc, List.append_assoc,
                skipWs_append _ (allWs_jpad (d + 1)), hser, List.cons_append,
                skipWs_cons _ hcws, ← List.append_assoc cs]
            rw [hskip]
            simp only [Char.reduceEq, reduceIte, if_neg hcbr]
            rw [show c :: (cs ++ ((asep true xs ++ serArrItems true (d + 1) xs) ++
                  (('\n' :: jpad d) ++ (']' :: rest)))) =
                serJson true (d + 1) x ++ ((asep true xs ++ serArrItems true (d + 1) xs) ++
                  (('\n' :: jpad d) ++ (']' :: rest))) from by rw [hser]; rfl]
            rw [← pArrItems_ws _ (allWs_jpad (d + 1))]
            rw [show jpad (d + 1) ++ (serJson true (d + 1) x ++
                ((asep true xs ++ serArrItems true (d + 1) xs) ++
                  (('\n' :: jpad d) ++ (']' :: rest)))) =
                serArrItems true (d + 1) (.cons x xs) ++
                  (('\n' :: jpad d) ++ (']' :: rest)) from by
              rw [serArrItems_cons]
              simp [List.append_assoc]]
            exact harr x xs true (d + 1) ('\n' :: jpad d) rest hwx hws2
          | false =>
            rw [show serJson false d (.arr (.cons x xs)) ++ rest =
                '[' :: (serArrItems false (d + 1) (.cons x xs) ++ (']' :: rest)) from by
              simp [serJson, List.append_assoc]]
            simp only [pVal]
            rw [skipWs_cons _ (by decide)]
            simp only [Char.reduceEq, reduceIte]
            have hskip : skipWs (serArrItems false (d + 1) (.cons x xs) ++ (']' :: rest)) =
                c :: (cs ++ ((asep false xs ++ serArrItems false (d + 1) xs) ++
                  (']' :: rest))) := by
              rw [serArrItems_cons]
              simp only [Bool.false_eq_true, if_false]
              rw [List.append_assoc, hser, List.cons_append, skipWs_cons _ hcws,
                ← List.append_assoc cs]
            rw [hskip]
            simp only [Char.reduceEq, reduceIte, if_neg hcbr]
            rw [show c :: (cs ++ ((asep false xs ++ serArrItems false (d + 1) xs) ++
                  (']' :: rest))) =
                serArrItems false (d + 1) (.cons x xs) ++ ([] ++ (']' :: rest)) from by
              rw [serArrItems_cons]
              simp only [Bool.false_eq_true, if_false]
              rw [hser]
              simp [List.append_assoc]]
            exact harr x xs false (d + 1) [] rest hwx (by intro ch hch; simp at hch)
      | obj fs =>
        cases fs with
        | nil =>
          rw [show serJson pretty d (.obj .nil) ++ rest = '\x7b' :: ('\x7d' :: rest) from by
            simp [serJson]]
          simp only [pVal]
          rw [skipWs_cons _ (by decide)]
          simp only [Char.reduceEq, reduceIte]
          rw [skipWs_cons _ (by decide)]
          simp only [Char.reduceEq, reduceIte]
        | cons k v fs =>
          have hwv : 1 + jweight v + fweight fs ≤ f := by
            simp only [jweight, fweight] at hw; omega
          obtain ⟨f', rfl⟩ : ∃ f', f = f' + 1 := ⟨f - 1, by have := jweight_pos v; omega⟩
          have hobj := (ih (f' + 1) (by omega)).2.2
          have hqk : jsonQuote k = '"' :: ((k.data.map jsonEscapeChar).flatten ++ ['"']) := by
            simp [jsonQuote]
          have hnlws : AllWs ['\n'] := by
            intro ch hch
            simp at hch
            subst hch
            rfl
          cases pretty with
          | true =>
            have hws2 : AllWs ('\n' :: jpad d) := by
              intro ch hch
              rcases List.mem_cons.1 hch with h | h
              · subst h; rfl
              · exact allWs_jpad d ch h
            rw [show serJson true d (.obj (.cons k v fs)) ++ rest =
                '\x7b' :: ('\n' :: (serObjItems true (d + 1) (.cons k v fs) ++
                  (('\n' :: jpad d) ++ ('\x7d' :: rest)))) from by
              simp [serJson, List.append_assoc]]
            simp only [pVal]
            rw [skipWs_cons _ (by decide)]
            simp only [Char.reduceEq, reduceIte]
            have hskip : skipWs ('\n' :: (serObjItems true (d + 1) (.cons k v fs) ++
                (('\n' :: jpad d) ++ ('\x7d' :: rest)))) =
                '"' :: ((((k.data.map jsonEscapeChar).flatten ++ ['"']) ++
                  (':' :: ' ' :: serJson true (d + 1) v ++
                    ((fsep true fs ++ serObjItems true (d + 1) fs) ++
                      (('\n' :: jpad d) ++ ('\x7d' :: rest)))))) := by
              rw [show ('\n' :: (serObjItems true (d + 1) (.cons k v fs) ++
                  (('\n' :: jpad d) ++ ('\x7d' :: rest)))) =
                  ['\n'] ++ (serObjItems true (d + 1) (.cons k v fs) ++
                  (('\n' :: jpad d) ++ ('\x7d' :: rest))) from rfl]
              rw [skipWs_append _ hnlws, serObjItems_cons]
              simp only [if_true, List.append_assoc]
              rw [skipWs_append _ (allWs_jpad (d + 1)), hqk, List.cons_append,
                skipWs_cons _ (by decide)]
              simp [List.append_assoc]
            rw [hskip]
            simp only [Char.reduceEq, reduceIte]
            rw [show '"' :: ((((k.data.map jsonEscapeChar).flatten ++ ['"']) ++
                  (':' :: ' ' :: serJson true (d + 1) v ++
                    ((fsep true fs ++ serObjItems true (d + 1) fs) ++
                      (('\n' :: jpad d) ++ ('\x7d' :: rest)))))) =
                (jsonQuote k ++ ':' :: ' ' :: serJson true (d + 1) v) ++
                  ((fsep true fs ++ serObjItems true (d + 1) fs) ++
                    (('\n' :: jpad d) ++ ('\x7d' :: rest))) from by
              rw [hqk]
              simp [List.append_assoc]]
            rw [show ((jsonQuote k ++ ':' :: ' ' :: serJson true (d + 1) v) ++
                  ((fsep true fs ++ serObjItems true (d + 1) fs) ++
                    (('\n' :: jpad d) ++ ('\x7d' :: rest)))) =
                (jsonQuote k ++ ':' :: ' ' :: serJson true (d + 1) v) ++
                  ((fsep true fs ++ serObjItems true (d + 1) fs)) ++
                    (('\n' :: jpad d) ++ ('\x7d' :: rest)) from by
              simp [List.append_assoc]]
            rw [← pObjItems_ws _ (allWs_jpad (d + 1))]
            rw [show jpad (d + 1) ++ ((jsonQuote k ++ ':' :: ' ' :: serJson true (d + 1) v) ++
                  (fsep true fs ++ serObjItems true (d + 1) fs) ++
                    (('\n' :: jpad d) ++ ('\x7d' :: rest))) =
                serObjItems true (d + 1) (.cons k v fs) ++
                  (('\n' :: jpad d) ++ ('\x7d' :: rest)) from by
              rw [serObjItems_cons]
              simp [List.append_assoc]]
            exact hobj k v fs true (d + 1) ('\n' :: jpad d) rest hwv hws2
          | false =>
            rw [show serJson false d (.obj (.cons k v fs)) ++ rest =
                '\x7b' :: (serObjItems false (d + 1) (.cons k v fs) ++
                  ('\x7d' :: rest)) from by
              simp [serJson, List.append_assoc]]
            simp only [pVal]
            rw [skipWs_cons _ (by decide)]
            simp only [Char.reduceEq, reduceIte]
            have hskip : skipWs (serObjItems false (d + 1) (.cons k v fs) ++
                ('\x7d' :: rest)) =
                '"' :: ((((k.data.map jsonEscapeChar).flatten ++ ['"']) ++
                  (':' :: serJson false (d + 1) v ++
                    ((fsep false fs ++ serObjItems false (d + 1) fs) ++
                      ('\x7d' :: rest))))) := by
              rw [serObjItems_cons]
              simp only [Bool.false_eq_true, if_false, List.append_assoc]
              rw [hqk, List.cons_append, skipWs_cons _ (by decide)]
              simp [List.append_assoc]
            rw [hskip]
            simp only [Char.reduceEq, reduceIte]
            rw [show '"' :: ((((k.data.map jsonEscapeChar).flatten ++ ['"']) ++
                  (':' :: serJson false (d + 1) v ++
                    ((fsep false fs ++ serObjItems false (d + 1) fs) ++
                      ('\x7d' :: rest))))) =
                serObjItems false (d + 1) (.cons k v fs) ++ ([] ++ ('\x7d' :: rest)) from by
              rw [serObjItems_cons]
              simp only [Bool.false_eq_true, if_false]
              rw [hqk]
              simp [List.append_assoc]]
            exact hobj k v fs false (d + 1) [] rest hwv (by intro ch hch; simp at hch)
    · intro x xs pretty d ws rest hw hws
      obtain ⟨f, rfl⟩ : ∃ f, fuel = f + 1 := ⟨fuel - 1, by omega⟩
      have hcl : (']' : Char).isDigit = false ∧ ¬(']' : Char) = '.' ∧ ¬(']' : Char) = 'e' ∧
          ¬(']' : Char) = 'E' := by refine ⟨by decide, by decide, by decide, by decide⟩
      have hval := (ih f (by omega)).1
      cases xs with
      | nil =>
        have hx : pVal f ((if pretty then jpad d ++ serJson pretty d x
            else serJson pretty d x) ++ (ws ++ ']' :: rest)) = some (x, ws ++ ']' :: rest) := by
          cases pretty with
          | true =>
            simp only [if_true, List.append_assoc]
            rw [pVal_ws _ (allWs_jpad d)]
            exact hval x true d (ws ++ ']' :: rest) (by omega)
              (fun n hn => by subst hn; exact numSep_ws_close hws hcl rest)
          | false =>
            simp only [Bool.false_eq_true, if_false]
            exact hval x false d (ws ++ ']' :: rest) (by omega)
              (fun n hn => by subst hn; exact numSep_ws_close hws hcl rest)
        rw [pArrItems_succ]
        rw [show serArrItems pretty d (.cons x .nil) ++ (ws ++ ']' :: rest) =
            (if pretty then jpad d ++ serJson pretty d x else serJson pretty d x) ++
              (ws ++ ']' :: rest) from by
          rw [serArrItems_cons]
          simp [asep, serArrItems]]
        simp only [hx]
        rw [skipWs_append _ hws, skipWs_cons _ (by decide)]
        simp only [Char.reduceEq, reduceIte]
      | cons y ys =>
        obtain ⟨f', rfl⟩ : ∃ f', f = f' + 1 := by
          refine ⟨f - 1, ?_⟩
          have h1 := jweight_pos x
          have h2 := jweight_pos y
          simp only [lweight] at hw
          omega
        have harr2 := (ih (f' + 1) (by omega)).2.1
        have hx : pVal (f' + 1) ((if pretty then jpad d ++ serJson pretty d x
            else serJson pretty d x) ++
              (asep pretty (JsonList.cons y ys) ++
                (serArrItems pretty d (.cons y ys) ++ (ws ++ ']' :: rest)))) =
            some (x, asep pretty (JsonList.cons y ys) ++
              (serArrItems pretty d (.cons y ys) ++ (ws ++ ']' :: rest))) := by
          have hguard : ∀ n, x = Json.num n → NumSep (asep pretty (JsonList.cons y ys) ++
              (serArrItems pretty d (.cons y ys) ++ (ws ++ ']' :: rest))) := by
            intro n hn
            cases pretty <;>
              exact ⟨by decide, by decide, by decide, by decide⟩
          cases pretty with
          | true =>
            simp only [if_true, List.append_assoc]
            rw [pVal_ws _ (allWs_jpad d)]
            exact hval x true d _ (by simp only [lweight] at hw; omega) hguard
          | false =>
            simp only [Bool.false_eq_true, if_false]
            exact hval x false d _ (by simp only [lweight] at hw; omega) hguard
        rw [pArrItems_succ]
        rw [show serArrItems pretty d (.cons x (.cons y ys)) ++ (ws ++ ']' :: rest) =
            (if pretty then jpad d ++ serJson pretty d x else serJson pretty d x) ++
              (asep pretty (JsonList.cons y ys) ++
                (serArrItems pretty d (.cons y ys) ++ (ws ++ ']' :: rest))) from by
          rw [serArrItems_cons]
          simp [List.append_assoc]]
        simp only [hx]
        have hrec : pArrItems (f' + 1) (serArrItems pretty d (.cons y ys) ++
            (ws ++ ']' :: rest)) = some (.arr (.cons y ys), rest) :=
          harr2 y ys pretty d ws rest (by simp only [lweight] at hw; omega) hws
        cases pretty with
        | true =>
          rw [show asep true (JsonList.cons y ys) ++
              (serArrItems true d (.cons y ys) ++ (ws ++ ']' :: rest)) =
              ',' :: ('\n' :: (serArrItems true d (.cons y ys) ++ (ws ++ ']' :: rest)))
            from by simp [asep]]
          rw [skipWs_cons _ (by decide)]
          simp only [Char.reduceEq, reduceIte]
          rw [show ('\n' :: (serArrItems true d (.cons y ys) ++ (ws ++ ']' :: rest))) =
              ['\n'] ++ (serArrItems true d (.cons y ys) ++ (ws ++ ']' :: rest)) from rfl]
          have hnl : AllWs ['\n'] := by
            intro ch hch
            simp at hch
            subst hch
            rfl
          rw [pArrItems_ws _ hnl, hrec]
        | false =>
          rw [show asep false (JsonList.cons y ys) ++
              (serArrItems false d (.cons y ys) ++ (ws ++ ']' :: rest)) =
              ',' :: (serArrItems false d (.cons y ys) ++ (ws ++ ']' :: rest))
            from by simp [asep]]
          rw [skipWs_cons _ (by decide)]
          simp only [Char.reduceEq, reduceIte]
          rw [hrec]
    · intro k v fs pretty d ws rest hw hws
      obtain ⟨f, rfl⟩ : ∃ f, fuel = f + 1 := ⟨fuel - 1, by omega⟩
      have hcl : ('\x7d' : Char).isDigit = false ∧ ¬('\x7d' : Char) = '.' ∧
          ¬('\x7d' : Char) = 'e' ∧ ¬('\x7d' : Char) = 'E' := by
        refine ⟨by decide, by decide, by decide, by decide⟩
      have hval := (ih f (by omega)).1
      have hqk : jsonQuote k = '"' :: ((k.data.map jsonEscapeChar).flatten ++ ['"']) := by
        simp [jsonQuote]
      have hguard : ∀ n, v = Json.num n →
          NumSep (fsep pretty fs ++ (serObjItems pretty d fs ++ (ws ++ '\x7d' :: rest))) := by
        intro n hn
        cases fs with
        | nil =>
          cases pretty <;>
            exact numSep_ws_close hws hcl rest
        | cons k2 v2 fs2 =>
          cases pretty <;>
            exact ⟨by decide, by decide, by decide, by decide⟩
      rw [pObjItems_succ]
      have hskip : skipWs (serObjItems pretty d (.cons k v fs) ++ (ws ++ '\x7d' :: rest)) =
          '"' :: ((k.data.map jsonEscapeChar).flatten ++
            ('"' :: ((if pretty then ':' :: ' ' :: serJson pretty d v
                      else ':' :: serJson pretty d v) ++
              (fsep pretty fs ++ (serObjItems pretty d fs ++ (ws ++ '\x7d' :: rest)))))) := by
        rw [serObjItems_cons]
        cases pretty with
        | true =>
          simp only [if_true, List.append_assoc]
          rw [skipWs_append _ (allWs_jpad d), hqk, List.cons_append,
            skipWs_cons _ (by decide)]
          simp [List.append_assoc]
        | false =>
          simp only [Bool.false_eq_true, if_false, List.append_assoc]
          rw [hqk, List.cons_append, skipWs_cons _ (by decide)]
          simp [List.append_assoc]
      rw [hskip]
      simp only [Char.reduceEq, reduceIte]
      rw [show (k.data.map jsonEscapeChar).flatten ++
            ('"' :: ((if pretty then ':' :: ' ' :: serJson pretty d v
                      else ':' :: serJson pretty d v) ++
              (fsep pretty fs ++ (serObjItems pretty d fs ++ (ws ++ '\x7d' :: rest))))) =
          (k.data.map jsonEscapeChar).flatten ++
            '"' :: ((if pretty then ':' :: ' ' :: serJson pretty d v
                      else ':' :: serJson pretty d v) ++
              (fsep pretty fs ++ (serObjItems pretty d fs ++ (ws ++ '\x7d' :: rest)))) from rfl]
      rw [pStrAux_escape k.data _ []
        ((if pretty then ':' :: ' ' :: serJson pretty d v
          else ':' :: serJson pretty d v) ++
          (fsep pretty fs ++ (serObjItems pretty d fs ++ (ws ++ '\x7d' :: rest))))
        (by simp [List.length_append]; omega)]
      simp only [List.reverse_nil, List.nil_append]
      cases pretty with
      | true =>
        simp only [reduceIte, List.cons_append]
        rw [skipWs_cons _ (by decide)]
        simp only [Char.reduceEq, reduceIte]
        have hv : pVal f (' ' :: (serJson true d v ++
            (fsep true fs ++ (serObjItems true d fs ++ (ws ++ '\x7d' :: rest))))) =
            some (v, fsep true fs ++ (serObjItems true d fs ++ (ws ++ '\x7d' :: rest))) := by
          rw [show (' ' :: (serJson true d v ++
              (fsep true fs ++ (serObjItems true d fs ++ (ws ++ '\x7d' :: rest))))) =
              [' '] ++ (serJson true d v ++
              (fsep true fs ++ (serObjItems true d fs ++ (ws ++ '\x7d' :: rest)))) from rfl]
          have hsp : AllWs [' '] := by
            intro ch hch
            simp at hch
            subst hch
            rfl
          rw [pVal_ws _ hsp]
          exact hval v true d _ (by omega) hguard
        simp only [hv]
        cases fs with
        | nil =>
          simp only [fsep, serObjItems, List.nil_append]
          rw [skipWs_append _ hws, skipWs_cons _ (by decide)]
          simp only [Char.reduceEq, reduceIte]
        | cons k2 v2 fs2 =>
          obtain ⟨f', rfl⟩ : ∃ f', f = f' + 1 := by
            refine ⟨f - 1, ?_⟩
            have h1 := jweight_pos v
            have h2 := jweight_pos v2
            simp only [fweight] at hw
            omega
          simp only [fsep, Bool.false_eq_true, if_false, reduceIte, List.cons_append, List.nil_append]
          rw [skipWs_cons _ (by decide)]
          simp only [Char.reduceEq, reduceIte]
          rw [show ('\n' :: (serObjItems true d (.cons k2 v2 fs2) ++
              (ws ++ '\x7d' :: rest))) =
              ['\n'] ++ (serObjItems true d (.cons k2 v2 fs2) ++ (ws ++ '\x7d' :: rest))
            from rfl]
          have hnl : AllWs ['\n'] := by
            intro ch hch
            simp at hch
            subst hch
            rfl
          rw [pObjItems_ws _ hnl,
            (ih (f' + 1) (by omega)).2.2 k2 v2 fs2 true d ws rest
              (by simp only [fweight] at hw; omega) hws]
      | false =>
        simp only [Bool.false_eq_true, if_false, List.cons_append]
        rw [skipWs_cons _ (by decide)]
        simp only [Char.reduceEq, reduceIte]
        have hv : pVal f (serJson false d v ++
            (fsep false fs ++ (serObjItems false d fs ++ (ws ++ '\x7d' :: rest)))) =
            some (v, fsep false fs ++ (serObjItems false d fs ++ (ws ++ '\x7d' :: rest))) :=
          hval v false d _ (by omega) hguard
        simp only [hv]
        cases fs with
        | nil =>
          simp only [fsep, serObjItems, List.nil_append]
          rw [skipWs_append _ hws, skipWs_cons _ (by decide)]
          simp only [Char.reduceEq, reduceIte]
        | cons k2 v2 fs2 =>
          obtain ⟨f', rfl⟩ : ∃ f', f = f' + 1 := by
            refine ⟨f - 1, ?_⟩
            have h1 := jweight_pos v
            have h2 := jweight_pos v2
            simp only [fweight] at hw
            omega
          simp only [fsep, Bool.false_eq_true, if_false, reduceIte, List.cons_append, List.nil_append]
          rw [skipWs_cons _ (by decide)]
          simp only [Char.reduceEq, reduceIte]
          rw [(ih (f' + 1) (by omega)).2.2 k2 v2 fs2 false d ws rest
              (by simp only [fweight] at hw; omega) hws]

mutual
theorem jweight_le_len (pretty : Bool) (d : Nat) :
    (j : Json) → jweight j ≤ (serJson pretty d j).length
  | .str s => by
    simp [jweight, serJson, jsonQuote]
  | .num n => by
    have h := natToStr_ne_nil n
    simp only [jweight, serJson]
    have : (natToStr n).data.length ≠ 0 := fun hc => h (List.length_eq_zero.1 hc)
    show 1 ≤ (natToStr n).data.length
    omega
  | .jbool b => by cases b <;> simp [jweight, serJson]
  | .jnull => by simp [jweight, serJson]
  | .arr xs => by
    cases xs with
    | nil => simp [jweight, lweight, serJson]
    | cons x xs2 =>
      have h := lweight_le_len pretty (d + 1) (JsonList.cons x xs2)
      simp only [jweight, serJson]
      cases pretty <;> simp [List.length_append] <;> omega
  | .obj fs => by
    cases fs with
    | nil => simp [jweight, fweight, serJson]
    | cons k v fs2 =>
      have h := fweight_le_len pretty (d + 1) (JsonFields.cons k v fs2)
      simp only [jweight, serJson]
      cases pretty <;> simp [List.length_append] <;> omega

theorem lweight_le_len (pretty : Bool) (d : Nat) :
    (xs : JsonList) → lweight xs ≤ (serArrItems pretty d xs).length + 1
  | .nil => by simp [lweight, serArrItems]
  | .cons x xs => by
    have h1 := jweight_le_len pretty d x
    have h2 := lweight_le_len pretty d xs
    simp only [lweight, serArrItems_cons]
    cases xs with
    | nil =>
      cases pretty <;> simp [asep, serArrItems, lweight, List.length_append] <;> omega
    | cons y ys =>
      cases pretty <;> simp [asep, List.length_append] <;> omega

theorem fweight_le_len (pretty : Bool) (d : Nat) :
    (fs : JsonFields) → fweight fs ≤ (serObjItems pretty d fs).length + 1
  | .nil => by simp [fweight, serObjItems]
  | .cons k v fs => by
    have h1 := jweight_le_len pretty d v
    have h2 := fweight_le_len pretty d fs
    simp only [fweight, serObjItems_cons]
    cases fs with
    | nil =>
      cases pretty <;> simp [fsep, serObjItems, fweight, List.length_append] <;> omega
    | cons k2 v2 fs2 =>
      cases pretty <;> simp [fsep, List.length_append] <;> omega
end

/-- `JSON.parse` inverts `JSON.stringify` (in both the compact and the
pretty-printed mode). -/
theorem jsonParse_stringify (pretty : Bool) (j : Json) :
    jsonParse (jsonStringify pretty j) = some j := by
  have hlen : jweight j ≤ (serJson pretty 0 j).length + 1 :=
    le_trans (jweight_le_len pretty 0 j) (by omega)
  have h := (parser_master ((serJson pretty 0 j).length + 1)).1 j pretty 0 [] hlen
    (fun n hn => trivial)
  rw [List.append_nil] at h
  show (match pVal ((jsonStringify pretty j).length + 1) (jsonStringify pretty j).data with
    | some (j, rest) => if (skipWs rest).isEmpty then some j else none
    | none => none) = some j
  have hdata : (jsonStringify pretty j).data = serJson pretty 0 j := rfl
  have hl : (jsonStringify pretty j).length = (serJson pretty 0 j).length := by
    show (jsonStringify pretty j).data.length = _
    rw [hdata]
  rw [hdata, hl, h]
  rfl

/-! ## The data model as JSON

`recipeToJson` fixes the runtime key order of a recipe object to the
declaration order of the interfaces in `src/lib/types.ts` and
`src/lib/recipe.ts`; `JSON.stringify` emits keys in object insertion order,
and no claim depends on the particular order.  Absent optional fields are
omitted, exactly as `JSON.stringify` omits `undefined` properties. -/

def stepTypeStr : StepType → String
  | .prep => "prep"
  | .cook => "cook"
  | .rest => "rest"

def roleStr : Role → String
  | .user => "user"
  | .assistant => "assistant"

def contentTypeStr : ContentType → String
  | .text => "text"
  | .image => "image"

def measureSystemStr : MeasureSystem → String
  | .metric => "metric"
  | .american => "american"

/-- A JSON array of strings. -/
def strArr (ss : List String) : Json := .arr (jl (ss.map Json.str))

/-- Prepend the field when the value is present (JS omits `undefined`). -/
def optField (k : String) (o : Option Json) (rest : JsonFields) : JsonFields :=
  match o with
  | some v => .cons k v rest
  | none => rest

def stepToJson (s : Step) : Json :=
  .obj (.cons "stepNumber" (.num s.stepNumber)
    (.cons "type" (.str (stepTypeStr s.type))
      (.cons "instruction" (.str s.instruction)
        (.cons "ingredients" (strArr s.ingredients)
          (optField "equipment" (s.equipment.map strArr)
            (.cons "timerMinutes" (.num s.timerMinutes) .nil))))))

def flowGroupToJson (g : FlowGroup) : Json :=
  .obj (.cons "parallel" (.jbool g.parallel)
    (.cons "steps" (.arr (jl (g.steps.map stepToJson))) .nil))

def contentToJson (c : MessageContent) : Json :=
  .obj (.cons "type" (.str (contentTypeStr c.type))
    (optField "text" (c.text.map Json.str)
      (optField "image" (c.image.map Json.str)
        (optField "mimeType" (c.mimeType.map Json.str) .nil))))

def messageToJson (m : Message) : Json :=
  .obj (.cons "role" (.str (roleStr m.role))
    (.cons "content"
      (match m.content with
       | .str s => .str s
       | .parts cs => .arr (jl (cs.map contentToJson))) .nil))

def recipeToJson (r : Recipe) : Json :=
  .obj (.cons "title" (.str r.title)
    (optField "servings" (r.servings.map Json.num)
      (optField "ingredients" (r.ingredients.map strArr)
        (optField "equipment" (r.equipment.map strArr)
          (.cons "flowGroups" (.arr (jl (r.flowGroups.map flowGroupToJson)))
            (optField "slug" (r.slug.map Json.str)
              (optField "savedAt" (r.savedAt.map Json.str)
                (optField "conversationHistory"
                  (r.conversationHistory.map
                    (fun ms => .arr (jl (ms.map messageToJson))))
                  (optField "measureSystem"
                    (r.measureSystem.map (fun m => Json.str (measureSystemStr m)))
                    (optField "servingsCount" (r.servingsCount.map Json.num)
                      .nil))))))))))

/-! ### Decoding (used to state field-level equality of round-tripped data) -/

/-- `JsonList` back to a Lean list. -/
def jlToList : JsonList → List Json
  | .nil => []
  | .cons x xs => x :: jlToList xs

/-- Property lookup on a parsed JSON object: with duplicate keys,
`JSON.parse` keeps the last occurrence, so the lookup prefers the
rightmost match. -/
def lookupField : JsonFields → String → Option Json
  | .nil, _ => none
  | .cons key v fs, k =>
    match lookupField fs k with
    | some r => some r
    | none => if key = k then some v else none

/-- Property access `j.k` (returns `undefined`/`none` on non-objects). -/
def getProp (j : Json) (k : String) : Option Json :=
  match j with
  | .obj fs => lookupField fs k
  | _ => none

def jsonToStr : Json → Option String
  | .str s => some s
  | _ => none

def jsonToNat : Json → Option Nat
  | .num n => some n
  | _ => none

def jsonToBool : Json → Option Bool
  | .jbool b => some b
  | _ => none

/-- Decode every element of a list, failing if any element fails. -/
def decodeList {α : Type} (dec : Json → Option α) : List Json → Option (List α)
  | [] => some []
  | j :: js =>
    match dec j, decodeList dec js with
    | some a, some as => some (a :: as)
    | _, _ => none

def jsonToStrList (j : Json) : Option (List String) :=
  match j with
  | .arr xs => decodeList jsonToStr (jlToList xs)
  | _ => none

def strToStepType (s : String) : Option StepType :=
  if s = "prep" then some .prep
  else if s = "cook" then some .cook
  else if s = "rest" then some .rest
  else none

def strToRole (s : String) : Option Role :=
  if s = "user" then some .user
  else if s = "assistant" then some .assistant
  else none

def strToContentType (s : String) : Option ContentType :=
  if s = "text" then some .text
  else if s = "image" then some .image
  else none

def strToMeasureSystem (s : String) : Option MeasureSystem :=
  if s = "metric" then some .metric
  else if s = "american" then some .american
  else none

/-- Decode an optional field: absent is fine, present must decode. -/
def optDecode {α : Type} (o : Option Json) (dec : Json → Option α) : Option (Option α) :=
  match o with
  | none => some none
  | some v => (dec v).map some

def jsonToStep (j : Json) : Option Step :=
  match j with
  | .obj fs => do
    let sn ← (lookupField fs "stepNumber").bind jsonToNat
    let ty ← ((lookupField fs "type").bind jsonToStr).bind strToStepType
    let ins ← (lookupField fs "instruction").bind jsonToStr
    let ing ← (lookupField fs "ingredients").bind jsonToStrList
    let eq ← optDecode (lookupField fs "equipment") jsonToStrList
    let tm ← (lookupField fs "timerMinutes").bind jsonToNat
    some ⟨sn, ty, ins, ing, eq, tm⟩
  | _ => none

def jsonToFlowGroup (j : Json) : Option FlowGroup :=
  match j with
  | .obj fs => do
    let par ← (lookupField fs "parallel").bind jsonToBool
    let steps ← match lookupField fs "steps" with
      | some (.arr xs) => decodeList jsonToStep (jlToList xs)
      | _ => none
    some ⟨par, steps⟩
  | _ => none

def jsonToContent (j : Json) : Option MessageContent :=
  match j with
  | .obj fs => do
    let ty ← ((lookupField fs "type").bind jsonToStr).bind strToContentType
    let tx ← optDecode (lookupField fs "text") jsonToStr
    let im ← optDecode (lookupField fs "image") jsonToStr
    let mt ← optDecode (lookupField fs "mimeType") jsonToStr
    some ⟨ty, tx, im, mt⟩
  | _ => none

def jsonToMessage (j : Json) : Option Message :=
  match j with
  | .obj fs => do
    let ro ← ((lookupField fs "role").bind jsonToStr).bind strToRole
    let co ← match lookupField fs "content" with
      | some (.str s) => some (MsgContent.str s)
      | some (.arr xs) => (decodeList jsonToContent (jlToList xs)).map MsgContent.parts
      | _ => none
    some ⟨ro, co⟩
  | _ => none

def jsonToRecipe (j : Json) : Option Recipe :=
  match j with
  | .obj fs => do
    let title ← (lookupField fs "title").bind jsonToStr
    let servings ← optDecode (lookupField fs "servings") jsonToNat
    let ingredients ← optDecode (lookupField fs "ingredients") jsonToStrList
    let equipment ← optDecode (lookupField fs "equipment") jsonToStrList
    let flowGroups ← match lookupField fs "flowGroups" with
      | some (.arr xs) => decodeList jsonToFlowGroup (jlToList xs)
      | _ => none
    let slug ← optDecode (lookupField fs "slug") jsonToStr
    let savedAt ← optDecode (lookupField fs "savedAt") jsonToStr
    let conv ← optDecode (lookupField fs "conversationHistory")
      (fun v => match v with
        | .arr xs => decodeList jsonToMessage (jlToList xs)
        | _ => none)
    let ms ← optDecode (lookupField fs "measureSystem")
      (fun v => (jsonToStr v).bind strToMeasureSystem)
    let sc ← optDecode (lookupField fs "servingsCount") jsonToNat
    some ⟨title, servings, ingredients, equipment, flowGroups, slug, savedAt, conv, ms, sc⟩
  | _ => none

theorem lookupField_optField_ne {k k' : String} (h : ¬k' = k) (o : Option Json)
    (rest : JsonFields) : lookupField (optField k' o rest) k = lookupField rest k := by
  cases o with
  | none => rfl
  | some v =>
    simp only [optField, lookupField]
    match hr : lookupField rest k with
    | some r => rfl
    | none => simp [h]

theorem lookupField_cons_ne {k k' : String} (h : ¬k' = k) (v : Json)
    (rest : JsonFields) : lookupField (.cons k' v rest) k = lookupField rest k := by
  simpa [optField] using lookupField_optField_ne h (some v) rest

theorem lookupField_optField_self {k : String} (o : Option Json) (rest : JsonFields)
    (h : lookupField rest k = none) : lookupField (optField k o rest) k = o := by
  cases o with
  | none => simpa [optField]
  | some v => simp [optField, lookupField, h]

theorem lookupField_cons_self {k : String} (v : Json) (rest : JsonFields)
    (h : lookupField rest k = none) : lookupField (.cons k v rest) k = some v := by
  simpa [optField] using lookupField_optField_self (some v) rest h

theorem decodeList_map {α : Type} (dec : Json → Option α) (enc : α → Json)
    (h : ∀ a, dec (enc a) = some a) : ∀ l : List α, decodeList dec (l.map enc) = some l := by
  intro l
  induction l with
  | nil => rfl
  | cons a l ih => simp [decodeList, h, ih]

theorem jlToList_jl : ∀ l : List Json, jlToList (jl l) = l := by
  intro l
  induction l with
  | nil => rfl
  | cons x xs ih => simp [jl, jlToList, ih]

theorem jsonToStr_strArr (ss : List String) : jsonToStrList (strArr ss) = some ss := by
  simp only [strArr, jsonToStrList, jlToList_jl]
  exact decodeList_map jsonToStr Json.str (fun a => rfl) ss

theorem optDecode_map {α : Type} (dec : Json → Option α) (enc : α → Json)
    (h : ∀ a, dec (enc a) = some a) (o : Option α) :
    optDecode (o.map enc) dec = some o := by
  cases o with
  | none => rfl
  | some a => simp [optDecode, h]

theorem jsonToStep_stepToJson (s : Step) : jsonToStep (stepToJson s) = some s := by
  obtain ⟨sn, ty, ins, ing, eq, tm⟩ := s
  cases ty <;> cases eq <;>
    simp [stepToJson, jsonToStep, lookupField, optField, jsonToNat, jsonToStr,
      strToStepType, stepTypeStr, optDecode, jsonToStr_strArr]

theorem strToRole_inv (r : Role) : strToRole (roleStr r) = some r := by
  cases r <;> decide

theorem strToContentType_inv (t : ContentType) :
    strToContentType (contentTypeStr t) = some t := by
  cases t <;> decide

theorem strToMeasureSystem_inv (m : MeasureSystem) :
    strToMeasureSystem (measureSystemStr m) = some m := by
  cases m <;> decide

theorem optDecode_str (o : Option String) : optDecode (o.map Json.str) jsonToStr = some o :=
  optDecode_map jsonToStr Json.str (fun _ => rfl) o

theorem optDecode_nat (o : Option Nat) : optDecode (o.map Json.num) jsonToNat = some o :=
  optDecode_map jsonToNat Json.num (fun _ => rfl) o

theorem optDecode_strList (o : Option (List String)) :
    optDecode (o.map strArr) jsonToStrList = some o :=
  optDecode_map jsonToStrList strArr jsonToStr_strArr o

theorem optDecode_ms (o : Option MeasureSystem) :
    optDecode (o.map fun m => Json.str (measureSystemStr m))
      (fun v => (jsonToStr v).bind strToMeasureSystem) = some o :=
  optDecode_map (fun v => (jsonToStr v).bind strToMeasureSystem)
    (fun m => Json.str (measureSystemStr m))
    (fun m => by simp [jsonToStr, strToMeasureSystem_inv]) o

theorem jsonToFlowGroup_inv (g : FlowGroup) :
    jsonToFlowGroup (flowGroupToJson g) = some g := by
  obtain ⟨par, steps⟩ := g
  simp [flowGroupToJson, jsonToFlowGroup, lookupField, jsonToBool, jlToList_jl,
    decodeList_map jsonToStep stepToJson jsonToStep_stepToJson]

theorem jsonToContent_inv (c : MessageContent) :
    jsonToContent (contentToJson c) = some c := by
  obtain ⟨ty, tx, im, mt⟩ := c
  cases tx <;> cases im <;> cases mt <;>
    simp [contentToJson, jsonToContent, lookupField, optField, jsonToStr,
      strToContentType_inv, optDecode]

theorem jsonToMessage_inv (m : Message) : jsonToMessage (messageToJson m) = some m := by
  obtain ⟨ro, co⟩ := m
  cases co with
  | str s => simp [messageToJson, jsonToMessage, lookupField, jsonToStr, strToRole_inv]
  | parts cs =>
      simp [messageToJson, jsonToMessage, lookupField, jsonToStr, strToRole_inv,
        jlToList_jl, decodeList_map jsonToContent contentToJson jsonToContent_inv]

theorem lookupField_nil (k : String) : lookupField .nil k = none := rfl

theorem decodeList_flowGroups (l : List FlowGroup) :
    decodeList jsonToFlowGroup (l.map flowGroupToJson) = some l :=
  decodeList_map jsonToFlowGroup flowGroupToJson jsonToFlowGroup_inv l

theorem decodeList_msgs (l : List Message) :
    decodeList jsonToMessage (l.map messageToJson) = some l :=
  decodeList_map jsonToMessage messageToJson jsonToMessage_inv l

theorem optDecode_conv (o : Option (List Message)) :
    optDecode (o.map fun ms => Json.arr (jl (ms.map messageToJson)))
      (fun v => match v with
        | .arr xs => decodeList jsonToMessage (jlToList xs)
        | _ => none) = some o :=
  optDecode_map _ _ (fun ms => by simp [jlToList_jl, decodeList_msgs]) o

theorem jsonToRecipe_inv (r : Recipe) : jsonToRecipe (recipeToJson r) = some r := by
  obtain ⟨title, servings, ingredients, equipment, flowGroups, slug, savedAt, conv, ms, sc⟩ := r
  simp [recipeToJson, jsonToRecipe, lookupField_optField_ne, lookupField_optField_self,
    lookupField_cons_ne, lookupField_cons_self, lookupField_nil, jsonToStr,
    optDecode_nat, optDecode_str, optDecode_strList, optDecode_ms, optDecode_conv,
    jlToList_jl, decodeList_flowGroups]
  cases ms <;> simp [optDecode, strToMeasureSystem_inv]

/-! ## Timestamps

`new Date(s).getTime()` is modelled for the canonical ISO-8601 format
`YYYY-MM-DDTHH:MM:SS.mmmZ`, the only format `toISOString` emits and hence
the only format the application itself writes into `savedAt`.  Every other
string is modelled as unparseable: `none` stands for JavaScript `NaN`.
Civil-calendar day counting follows the standard days-from-civil algorithm,
which agrees with the proleptic Gregorian calendar used by ECMAScript. -/

def digitVal (c : Char) : Option Nat :=
  if '0' ≤ c ∧ c ≤ '9' then some (c.toNat - 48) else none

def two (a b : Char) : Option Nat := do
  let x ← digitVal a
  let y ← digitVal b
  some (10 * x + y)

def isLeap (y : Nat) : Bool :=
  (y % 4 = 0 && y % 100 ≠ 0) || y % 400 = 0

def daysInMonth (y m : Nat) : Nat :=
  if m = 2 then (if isLeap y then 29 else 28)
  else if m = 4 ∨ m = 6 ∨ m = 9 ∨ m = 11 then 30
  else 31

/-- Days between 1970-01-01 and the civil date `y-m-d` (Gregorian). -/
def daysFromCivil (y m d : Nat) : Int :=
  let yi : Int := (y : Int) - (if m ≤ 2 then 1 else 0)
  let era : Int := (if 0 ≤ yi then yi else yi - 399) / 400
  let yoe : Int := yi - era * 400
  let mp : Int := (m : Int) + (if 2 < m then -3 else 9)
  let doy : Int := (153 * mp + 2) / 5 + (d : Int) - 1
  let doe : Int := yoe * 365 + yoe / 4 - yoe / 100 + doy
  era * 146097 + doe - 719468

/-- Milliseconds since the epoch of a string in canonical `toISOString`
format, `none` (JS `NaN`, an invalid `Date`) for anything else. -/
def parseDateMs (s : String) : Option Int :=
  match s.data with
  | [y1, y2, y3, y4, s1, m1, m2, s2, d1, d2, t, h1, h2, c1, i1, i2, c2, e1, e2, dt,
     p1, p2, p3, z] =>
    if s1 = '-' ∧ s2 = '-' ∧ t = 'T' ∧ c1 = ':' ∧ c2 = ':' ∧ dt = '.' ∧ z = 'Z' then do
      let yh ← two y1 y2
      let yl ← two y3 y4
      let mo ← two m1 m2
      let dy ← two d1 d2
      let hr ← two h1 h2
      let mi ← two i1 i2
      let se ← two e1 e2
      let mh ← digitVal p1
      let ml ← two p2 p3
      let y := 100 * yh + yl
      if 1 ≤ mo ∧ mo ≤ 12 ∧ 1 ≤ dy ∧ dy ≤ daysInMonth y mo ∧ hr < 24 ∧ mi < 60 ∧
          se < 60 then
        some (daysFromCivil y mo dy * 86400000 +
          (hr * 3600000 + mi * 60000 + se * 1000 + (100 * mh + ml) : Nat))
      else none
    else none
  | _ => none

/-- `new Date(0).toISOString()`. -/
def epochISO : String := "1970-01-01T00:00:00.000Z"

example : parseDateMs epochISO = some 0 := by decide
example : parseDateMs "1970-01-02T00:00:00.000Z" = some 86400000 := by decide
example : parseDateMs "not a date" = none := by decide

/-- `r.savedAt ? new Date(r.savedAt).getTime() : 0`: an absent or empty
(falsy) `savedAt` is time `0`; otherwise the parsed time (`none` = `NaN`). -/
def jsTimeOf (o : Option String) : Option Int :=
  match o with
  | none => some 0
  | some s => if s = "" then some 0 else parseDateMs s

/-- JavaScript `>` on two possibly-`NaN` numbers: any comparison against
`NaN` is false. -/
def timeGt : Option Int → Option Int → Bool
  | some a, some b => decide (b < a)
  | _, _ => false

/-! ## `getSavedRecipes`'s sort

`recipes.sort((a, b) => dateB - dateA)`: `Array.prototype.sort` is stable
(ES2019), so with a consistent comparator it computes the stable descending
order; a comparator result of `NaN` is treated as `±0` by `SortCompare`.
Stable sorting is modelled by insertion sort. -/

def cmpSaved (a b : Recipe) : Int :=
  match jsTimeOf a.savedAt, jsTimeOf b.savedAt with
  | some x, some y => y - x
  | _, _ => 0

/-- Insert `r` before the first element it must precede (comparator `≤ 0`). -/
def insertC (r : Recipe) : List Recipe → List Recipe
  | [] => [r]
  | x :: xs => if cmpSaved r x ≤ 0 then r :: x :: xs else x :: insertC r xs

/-- Stable insertion sort under the `savedAt` comparator. -/
def sortC : List Recipe → List Recipe
  | [] => []
  | x :: xs => insertC x (sortC xs)

theorem insertC_perm (r : Recipe) (l : List Recipe) : (insertC r l).Perm (r :: l) := by
  induction l with
  | nil => exact List.Perm.refl _
  | cons x xs ih =>
    simp only [insertC]
    by_cases h : cmpSaved r x ≤ 0
    · simp [h]
    · simp only [h, if_false]
      exact (ih.cons x).trans (List.Perm.swap r x xs)

theorem sortC_perm (l : List Recipe) : (sortC l).Perm l := by
  induction l with
  | nil => exact List.Perm.refl _
  | cons x xs ih => exact (insertC_perm x (sortC xs)).trans (ih.cons x)

/-- The numeric sort key of a stored recipe (defined when `savedAt` is
absent, empty, or canonical ISO; an entry without `savedAt` keys as `0`,
the epoch). -/
def savedKey (r : Recipe) : Int := (jsTimeOf r.savedAt).getD 0

/-- `a` may precede `b` in the descending order. -/
def descBy (a b : Recipe) : Prop := savedKey b ≤ savedKey a

theorem cmpSaved_good {a b : Recipe} (ha : (jsTimeOf a.savedAt).isSome)
    (hb : (jsTimeOf b.savedAt).isSome) : cmpSaved a b = savedKey b - savedKey a := by
  obtain ⟨x, hx⟩ := Option.isSome_iff_exists.mp ha
  obtain ⟨y, hy⟩ := Option.isSome_iff_exists.mp hb
  simp [cmpSaved, savedKey, hx, hy]

theorem insertC_pairwise {r : Recipe} {l : List Recipe}
    (hr : (jsTimeOf r.savedAt).isSome) (hl : ∀ x ∈ l, (jsTimeOf x.savedAt).isSome)
    (h : l.Pairwise descBy) : (insertC r l).Pairwise descBy := by
  induction l with
  | nil => simp [insertC, List.pairwise_singleton]
  | cons x xs ih =>
    have hx := hl x (by simp)
    have hxs : ∀ y ∈ xs, (jsTimeOf y.savedAt).isSome := fun y hy => hl y (by simp [hy])
    rw [List.pairwise_cons] at h
    simp only [insertC]
    by_cases hc : cmpSaved r x ≤ 0
    · rw [if_pos hc]
      rw [cmpSaved_good hr hx] at hc
      refine List.pairwise_cons.mpr ⟨?_, List.pairwise_cons.mpr h⟩
      intro y hy
      rcases List.mem_cons.mp hy with hy | hy
      · rw [hy]
        show savedKey x ≤ savedKey r
        omega
      · exact le_trans (h.1 y hy) (show savedKey x ≤ savedKey r by omega)
    · rw [if_neg hc]
      rw [cmpSaved_good hr hx] at hc
      refine List.pairwise_cons.mpr ⟨?_, ih hxs h.2⟩
      intro y hy
      rcases List.mem_cons.mp ((insertC_perm r xs).mem_iff.mp hy) with hy | hy
      · rw [hy]
        show savedKey r ≤ savedKey x
        omega
      · exact h.1 y hy

theorem sortC_pairwise {l : List Recipe} (hl : ∀ x ∈ l, (jsTimeOf x.savedAt).isSome) :
    (sortC l).Pairwise descBy := by
  induction l with
  | nil => simp [sortC]
  | cons x xs ih =>
    have hxs : ∀ y ∈ xs, (jsTimeOf y.savedAt).isSome := fun y hy => hl y (by simp [hy])
    exact insertC_pairwise (hl x (by simp))
      (fun y hy => hxs y ((sortC_perm xs).mem_iff.mp hy)) (ih hxs)

/-! ## The localStorage layer (`src/lib/storage.ts`)

The browser storage is a single key (`recipe-flow-recipes`); its state is
the stored string, or `none` when the key is absent (`getItem` returns
`null`).  `new Date().toISOString()` is passed in explicitly as `now`.
The in-browser branch is modelled (`typeof window` is not `undefined`).
`JSON.parse(stored) as Recipe[]` performs no runtime validation; the model
decodes into the `Recipe` type, which is the shape every write of this
module stores. -/

def StorageState := Option String

/-- `JSON.stringify(recipes)` (compact, as written to localStorage). -/
def serializeRecipes (rs : List Recipe) : String :=
  jsonStringify false (.arr (jl (rs.map recipeToJson)))

/-- `JSON.parse(stored) as Recipe[]`. -/
def parseRecipes (s : String) : Option (List Recipe) :=
  match jsonParse s with
  | some (.arr xs) => decodeList jsonToRecipe (jlToList xs)
  | _ => none

/-- `getSavedRecipes`: absent or falsy (empty) value → `[]`; a string that
fails to parse → `[]` (the `try`/`catch`); otherwise the parsed array
sorted by `savedAt`, newest first. -/
def getSavedRecipes (st : StorageState) : List Recipe :=
  match st with
  | none => []
  | some stored =>
    if stored = "" then []
    else
      match parseRecipes stored with
      | some rs => sortC rs
      | none => []

/-- JS `a || b` on a possibly-absent string: `undefined` and `""` are falsy. -/
def jsOrStr : Option String → String → String
  | some s, d => if s = "" then d else s
  | none, d => d

/-- Replace the first element satisfying `p` (the effect of
`findIndex` + assignment at the found index). -/
def replaceFirst (p : Recipe → Bool) (new : Recipe) : List Recipe → List Recipe
  | [] => []
  | x :: xs => if p x then new :: xs else x :: replaceFirst p new xs

/-- The slug-match predicate `r.slug === slug` (an absent slug matches
nothing: `undefined === s` is false). -/
def slugIs (s : String) (r : Recipe) : Bool := decide (r.slug = some s)

/-- `saveRecipe`: resolve the slug, stamp `savedAt` with the current time,
overwrite the first entry with the same slug or prepend, and persist. -/
def saveRecipe (now : String) (recipe : Recipe) (st : StorageState) :
    Recipe × StorageState :=
  let recipes := getSavedRecipes st
  let slug := jsOrStr recipe.slug (generateSlug recipe.title)
  let savedRecipe : Recipe := { recipe with slug := some slug, savedAt := some now }
  let newList :=
    if ((recipes.find? (slugIs slug)).isSome : Bool) then
      replaceFirst (slugIs slug) savedRecipe recipes
    else savedRecipe :: recipes
  (savedRecipe, some (serializeRecipes newList))

/-- `getRecipeBySlug` (`find(...) || null`). -/
def getRecipeBySlug (slug : String) (st : StorageState) : Option Recipe :=
  (getSavedRecipes st).find? (slugIs slug)

/-- `deleteRecipe`: filter out every entry whose `slug === slug`, persist. -/
def deleteRecipe (slug : String) (st : StorageState) : StorageState :=
  some (serializeRecipes ((getSavedRecipes st).filter (fun r => !slugIs slug r)))

/-- A `Partial<Recipe>` argument of `updateRecipe`: an outer `some` means
the key is present in the partial object (and so overrides on spread). -/
structure RecipeUpdates where
  title : Option String := none
  servings : Option (Option Nat) := none
  ingredients : Option (Option (List String)) := none
  equipment : Option (Option (List String)) := none
  flowGroups : Option (List FlowGroup) := none
  slug : Option (Option String) := none
  savedAt : Option (Option String) := none
  conversationHistory : Option (Option (List Message)) := none
  measureSystem : Option (Option MeasureSystem) := none
  servingsCount : Option (Option Nat) := none

/-- The spread `{ ...old, ...updates }`. -/
def applyUpdates (old : Recipe) (u : RecipeUpdates) : Recipe :=
  { title := u.title.getD old.title
    servings := u.servings.getD old.servings
    ingredients := u.ingredients.getD old.ingredients
    equipment := u.equipment.getD old.equipment
    flowGroups := u.flowGroups.getD old.flowGroups
    slug := u.slug.getD old.slug
    savedAt := u.savedAt.getD old.savedAt
    conversationHistory := u.conversationHistory.getD old.conversationHistory
    measureSystem := u.measureSystem.getD old.measureSystem
    servingsCount := u.servingsCount.getD old.servingsCount }

/-- Find the first entry matching `p`, replace it by the merged and
re-stamped record; `none` when no entry matches (`index < 0`). -/
def updateAux (now : String) (u : RecipeUpdates) (p : Recipe → Bool) :
    List Recipe → Option (Recipe × List Recipe)
  | [] => none
  | r :: rs =>
    if p r then
      let updated : Recipe := { applyUpdates r u with savedAt := some now }
      some (updated, updated :: rs)
    else
      match updateAux now u p rs with
      | some (x, rs') => some (x, r :: rs')
      | none => none

/-- `updateRecipe`: merge the partial into the first entry with the given
slug, re-stamp `savedAt`, persist; `null` (and no write) when absent. -/
def updateRecipe (now : String) (slug : String) (updates : RecipeUpdates)
    (st : StorageState) : Option Recipe × StorageState :=
  let recipes := getSavedRecipes st
  match updateAux now updates (slugIs slug) recipes with
  | none => (none, st)
  | some (updated, newList) => (some updated, some (serializeRecipes newList))

/-! ## Import with reconciliation (`importRecipe` and friends) -/

inductive ImportAction
  | added
  | updated
  | skipped
deriving DecidableEq

structure ImportResult where
  added : List Recipe
  updated : List Recipe
  skipped : List Recipe
deriving DecidableEq

/-- `importRecipe`: resolve the slug, keep the original `savedAt` (epoch
when missing), then add / update / skip against the entry with the same
slug.  Note the skip path performs no `setItem`: the state is returned
untouched. -/
def importRecipe (recipe : Recipe) (st : StorageState) : ImportAction × StorageState :=
  let recipes := getSavedRecipes st
  let slug := jsOrStr recipe.slug (generateSlug recipe.title)
  let importedRecipe : Recipe :=
    { recipe with slug := some slug, savedAt := some (jsOrStr recipe.savedAt epochISO) }
  match recipes.find? (slugIs slug) with
  | none => (.added, some (serializeRecipes (importedRecipe :: recipes)))
  | some existing =>
    if timeGt (jsTimeOf importedRecipe.savedAt) (jsTimeOf existing.savedAt) then
      (.updated, some (serializeRecipes (replaceFirst (slugIs slug) importedRecipe recipes)))
    else
      (.skipped, st)

/-- One classification step of `previewImport` (against the fixed snapshot
of existing recipes), prepending the original recipe to its bucket. -/
def previewStep (existingRecipes : List Recipe) (recipe : Recipe)
    (rest : ImportResult) : ImportResult :=
  let slug := jsOrStr recipe.slug (generateSlug recipe.title)
  match existingRecipes.find? (slugIs slug) with
  | none => { rest with added := recipe :: rest.added }
  | some existing =>
    if timeGt (jsTimeOf recipe.savedAt) (jsTimeOf existing.savedAt) then
      { rest with updated := recipe :: rest.updated }
    else
      { rest with skipped := recipe :: rest.skipped }

/-- The `previewImport` loop over the fixed snapshot. -/
def previewGo (existingRecipes : List Recipe) : List Recipe → ImportResult
  | [] => ⟨[], [], []⟩
  | r :: rs => previewStep existingRecipes r (previewGo existingRecipes rs)

/-- `previewImport`: a read-only dry run of the per-recipe classification
against the current storage state (it never writes: in the model it does
not even return a state). -/
def previewImport (recipesToImport : List Recipe) (st : StorageState) : ImportResult :=
  previewGo (getSavedRecipes st) recipesToImport

/-- Prepend `r` to the bucket selected by `act`. -/
def pushAction (act : ImportAction) (r : Recipe) (res : ImportResult) : ImportResult :=
  match act with
  | .added => { res with added := r :: res.added }
  | .updated => { res with updated := r :: res.updated }
  | .skipped => { res with skipped := r :: res.skipped }

/-- `importRecipes`: import each recipe in order (each import sees the
state the previous ones produced), bucketing the original recipes. -/
def importRecipes (recipesToImport : List Recipe) (st : StorageState) :
    ImportResult × StorageState :=
  match recipesToImport with
  | [] => (⟨[], [], []⟩, st)
  | r :: rs =>
    let (act, st1) := importRecipe r st
    let (res, st2) := importRecipes rs st1
    (pushAction act r res, st2)

/-! ### Round-trip of the persisted state -/

theorem parseRecipes_serializeRecipes (l : List Recipe) :
    parseRecipes (serializeRecipes l) = some l := by
  unfold parseRecipes serializeRecipes
  rw [jsonParse_stringify]
  simp [jlToList_jl, decodeList_map jsonToRecipe recipeToJson jsonToRecipe_inv]

theorem serializeRecipes_ne_empty (l : List Recipe) : ¬ serializeRecipes l = "" := by
  intro h
  have hd : serJson false 0 (.arr (jl (l.map recipeToJson))) = [] := congrArg String.data h
  cases hjl : jl (l.map recipeToJson) with
  | nil => rw [hjl] at hd; simp [serJson] at hd
  | cons x xs => rw [hjl] at hd; simp [serJson] at hd

theorem getSavedRecipes_serialize (l : List Recipe) :
    getSavedRecipes (some (serializeRecipes l)) = sortC l := by
  simp [getSavedRecipes, serializeRecipes_ne_empty l, parseRecipes_serializeRecipes]

/-! ### Slug uniqueness -/

/-- Entries `a` and `b` do not share a slug (an entry without a slug
shares with nobody). -/
def sApart (a b : Option String) : Prop := a = none ∨ ¬ a = b

/-- Each slug occurs in at most one stored recipe. -/
def NoDupSlugs (rs : List Recipe) : Prop :=
  rs.Pairwise (fun a b => sApart a.slug b.slug)

instance (a b : Option String) : Decidable (sApart a b) :=
  decidable_of_iff (a = none ∨ ¬ a = b) Iff.rfl

theorem sApart_symm {a b : Option String} (h : sApart a b) : sApart b a := by
  by_cases hb : b = none
  · exact Or.inl hb
  · refine Or.inr fun e => ?_
    rcases h with h | h
    · exact hb (e.trans h)
    · exact h e.symm

theorem noDupSlugs_perm {l l' : List Recipe} (hp : l.Perm l') (h : NoDupSlugs l) :
    NoDupSlugs l' := by
  exact (List.Perm.pairwise_iff (fun hab => sApart_symm hab) hp).mp h

theorem noDupSlugs_sortC {l : List Recipe} (h : NoDupSlugs l) : NoDupSlugs (sortC l) :=
  noDupSlugs_perm (sortC_perm l).symm h

theorem mem_replaceFirst {p : Recipe → Bool} {new y : Recipe} {l : List Recipe}
    (hy : y ∈ replaceFirst p new l) : y = new ∨ y ∈ l := by
  induction l with
  | nil => simp [replaceFirst] at hy
  | cons x xs ih =>
    simp only [replaceFirst] at hy
    by_cases hx : p x
    · rw [if_pos hx] at hy
      rcases List.mem_cons.mp hy with h | h
      · exact Or.inl h
      · exact Or.inr (List.mem_cons.mpr (Or.inr h))
    · rw [if_neg hx] at hy
      rcases List.mem_cons.mp hy with h | h
      · exact Or.inr (List.mem_cons.mpr (Or.inl h))
      · rcases ih h with h' | h'
        · exact Or.inl h'
        · exact Or.inr (List.mem_cons.mpr (Or.inr h'))

theorem noDupSlugs_cons {s : String} {new : Recipe} {l : List Recipe}
    (hslug : new.slug = some s) (hfind : l.find? (slugIs s) = none)
    (h : NoDupSlugs l) : NoDupSlugs (new :: l) := by
  refine List.pairwise_cons.mpr ⟨fun y hy => ?_, h⟩
  have := List.find?_eq_none.mp hfind y hy
  refine Or.inr fun e => ?_
  rw [hslug] at e
  exact this (by simp [slugIs, e.symm])

theorem noDupSlugs_replaceFirst {s : String} {new : Recipe} {l : List Recipe}
    (hslug : new.slug = some s) (h : NoDupSlugs l) :
    NoDupSlugs (replaceFirst (slugIs s) new l) := by
  induction l with
  | nil => exact h
  | cons x xs ih =>
    obtain ⟨h1, h2⟩ := List.pairwise_cons.mp h
    show List.Pairwise _ (replaceFirst (slugIs s) new (x :: xs))
    simp only [replaceFirst]
    by_cases hx : slugIs s x
    · rw [if_pos hx]
      have hxs : x.slug = some s := of_decide_eq_true hx
      refine List.pairwise_cons.mpr ⟨fun y hy => ?_, h2⟩
      have := h1 y hy
      rcases this with h' | h'
      · rw [h'] at hxs
        exact absurd hxs (by simp)
      · rw [hxs] at h'
        rw [hslug]
        exact Or.inr h'
    · rw [if_neg hx]
      refine List.pairwise_cons.mpr ⟨fun y hy => ?_, ih h2⟩
      rcases mem_replaceFirst hy with h' | h'
      · subst h'
        have hxns : ¬ x.slug = some s := fun e => hx (by simp [slugIs, e])
        rw [hslug]
        by_cases hxn : x.slug = none
        · exact Or.inl hxn
        · exact Or.inr fun e => hxns e
      · exact h1 y h'

/-- `updateAux` is: find the first match, merge-and-stamp it, replace it. -/
theorem updateAux_eq (now : String) (u : RecipeUpdates) (p : Recipe → Bool)
    (l : List Recipe) : updateAux now u p l =
      (l.find? p).map (fun r =>
        (({ applyUpdates r u with savedAt := some now } : Recipe),
         replaceFirst p { applyUpdates r u with savedAt := some now } l)) := by
  induction l with
  | nil => rfl
  | cons r rs ih =>
    simp only [updateAux, replaceFirst]
    by_cases hr : p r
    · simp [hr, List.find?_cons_of_pos _ hr, replaceFirst]
    · rw [if_neg hr, List.find?_cons_of_neg _ hr, ih]
      match hf : rs.find? p with
      | none => simp
      | some r' => simp [replaceFirst, hr]

theorem noDupSlugs_updateAux {now slug : String} {u : RecipeUpdates}
    {l l' : List Recipe} {x : Recipe} (hu : u.slug = none)
    (hup : updateAux now u (slugIs slug) l = some (x, l')) (h : NoDupSlugs l) :
    NoDupSlugs l' := by
  rw [updateAux_eq] at hup
  match hf : l.find? (slugIs slug) with
  | none => rw [hf] at hup; exact absurd hup (by simp)
  | some r =>
    rw [hf] at hup
    have hps : slugIs slug r = true := List.find?_some hf
    have hr : r.slug = some slug := of_decide_eq_true hps
    have hxs : ({ applyUpdates r u with savedAt := some now } : Recipe).slug = some slug := by
      simp [applyUpdates, hu, hr]
    obtain ⟨he1, he2⟩ := Prod.mk.injEq .. ▸ Option.some.injEq .. ▸ hup
    rw [← he2]
    exact noDupSlugs_replaceFirst hxs h

theorem saveRecipe_noDup (now : String) (r : Recipe) (st : StorageState)
    (h : NoDupSlugs (getSavedRecipes st)) :
    NoDupSlugs (getSavedRecipes (saveRecipe now r st).2) := by
  rcases hf : (getSavedRecipes st).find? (slugIs (jsOrStr r.slug (generateSlug r.title)))
    with _ | ex
  · have he : (saveRecipe now r st).2 = some (serializeRecipes
        (({ r with
            slug := some (jsOrStr r.slug (generateSlug r.title)),
            savedAt := some now } : Recipe) :: getSavedRecipes st)) := by
      simp [saveRecipe, hf]
    rw [he, getSavedRecipes_serialize]
    exact noDupSlugs_sortC (noDupSlugs_cons rfl hf h)
  · have he : (saveRecipe now r st).2 = some (serializeRecipes
        (replaceFirst (slugIs (jsOrStr r.slug (generateSlug r.title)))
          ({ r with
             slug := some (jsOrStr r.slug (generateSlug r.title)),
             savedAt := some now } : Recipe) (getSavedRecipes st))) := by
      simp [saveRecipe, hf]
    rw [he, getSavedRecipes_serialize]
    exact noDupSlugs_sortC (noDupSlugs_replaceFirst rfl h)

theorem deleteRecipe_noDup (slug : String) (st : StorageState)
    (h : NoDupSlugs (getSavedRecipes st)) :
    NoDupSlugs (getSavedRecipes (deleteRecipe slug st)) := by
  unfold deleteRecipe
  rw [getSavedRecipes_serialize]
  exact noDupSlugs_sortC (h.filter _)

theorem updateRecipe_noDup (now slug : String) (u : RecipeUpdates) (st : StorageState)
    (hu : u.slug = none) (h : NoDupSlugs (getSavedRecipes st)) :
    NoDupSlugs (getSavedRecipes (updateRecipe now slug u st).2) := by
  rcases hup : updateAux now u (slugIs slug) (getSavedRecipes st) with _ | ⟨x, l'⟩
  · have he : (updateRecipe now slug u st).2 = st := by
      simp [updateRecipe, hup]
    rw [he]; exact h
  · have he : (updateRecipe now slug u st).2 = some (serializeRecipes l') := by
      simp [updateRecipe, hup]
    rw [he, getSavedRecipes_serialize]
    exact noDupSlugs_sortC (noDupSlugs_updateAux hu hup h)

theorem importRecipe_noDup (r : Recipe) (st : StorageState)
    (h : NoDupSlugs (getSavedRecipes st)) :
    NoDupSlugs (getSavedRecipes (importRecipe r st).2) := by
  rcases hf : (getSavedRecipes st).find? (slugIs (jsOrStr r.slug (generateSlug r.title)))
    with _ | ex
  · have he : (importRecipe r st).2 = some (serializeRecipes
        (({ r with
            slug := some (jsOrStr r.slug (generateSlug r.title)),
            savedAt := some (jsOrStr r.savedAt epochISO) } : Recipe) ::
          getSavedRecipes st)) := by
      simp [importRecipe, hf]
    rw [he, getSavedRecipes_serialize]
    exact noDupSlugs_sortC (noDupSlugs_cons rfl hf h)
  · by_cases hgt : timeGt (jsTimeOf (some (jsOrStr r.savedAt epochISO)))
        (jsTimeOf ex.savedAt)
    · have he : (importRecipe r st).2 = some (serializeRecipes
          (replaceFirst (slugIs (jsOrStr r.slug (generateSlug r.title)))
            ({ r with
               slug := some (jsOrStr r.slug (generateSlug r.title)),
               savedAt := some (jsOrStr r.savedAt epochISO) } : Recipe)
            (getSavedRecipes st))) := by
        simp [importRecipe, hf, hgt]
      rw [he, getSavedRecipes_serialize]
      exact noDupSlugs_sortC (noDupSlugs_replaceFirst rfl h)
    · have he : (importRecipe r st).2 = st := by
        simp [importRecipe, hf, hgt]
      rw [he]; exact h

theorem importRecipes_noDup (l : List Recipe) (st : StorageState)
    (h : NoDupSlugs (getSavedRecipes st)) :
    NoDupSlugs (getSavedRecipes (importRecipes l st).2) := by
  induction l generalizing st with
  | nil => exact h
  | cons r rs ih =>
    have : (importRecipes (r :: rs) st).2 = (importRecipes rs (importRecipe r st).2).2 := by
      simp [importRecipes]
    rw [this]
    exact ih _ (importRecipe_noDup r st h)

/-! ### Frame property of `importRecipe` -/

theorem filter_replaceFirst (p : Recipe → Bool) (new : Recipe) (hnew : p new = true)
    (l : List Recipe) :
    (replaceFirst p new l).filter (fun x => !p x) = l.filter (fun x => !p x) := by
  induction l with
  | nil => rfl
  | cons x xs ih =>
    simp only [replaceFirst]
    by_cases hx : p x
    · rw [if_pos hx]
      simp [List.filter, hx, hnew]
    · rw [if_neg hx]
      simp [List.filter, hx, ih]

/-! ## HTML export (`src/mcp/components/RecipeFlowApp.tsx`) -/

/-- One global single-character replacement (`.replace(/c/g, rep)`). -/
def replaceChar (c : Char) (rep : List Char) (s : List Char) : List Char :=
  s.flatMap (fun x => if x = c then rep else [x])

/-- `escapeHtml`: the five sequential global replaces
`&`→`&amp;`, `<`→`&lt;`, `>`→`&gt;`, `"`→`&quot;`, `'`→`&#39;`. -/
def escapeHtml (s : String) : String :=
  ⟨replaceChar '\x27' ['&', '#', '3', '9', ';']
    (replaceChar '\x22' ['&', 'q', 'u', 'o', 't', ';']
      (replaceChar '>' ['&', 'g', 't', ';']
        (replaceChar '<' ['&', 'l', 't', ';']
          (replaceChar '&' ['&', 'a', 'm', 'p', ';'] s.data))))⟩

example : escapeHtml "a<b&c" = "a&lt;b&amp;c" := by decide

/-- No `<` survives `escapeHtml` (each pass leaves none and introduces
none). -/
theorem escapeHtml_no_lt (s : String) : ∀ c ∈ (escapeHtml s).data, ¬ c = '<' := by
  show ∀ c ∈ replaceChar '\x27' _ (replaceChar '\x22' _ (replaceChar '>' _
    (replaceChar '<' _ (replaceChar '&' _ s.data)))), ¬ c = '<'
  generalize s.data = l
  have h1 : ∀ c ∈ replaceChar '<' ['&', 'l', 't', ';']
      (replaceChar '&' ['&', 'a', 'm', 'p', ';'] l), ¬ c = '<' := by
    generalize replaceChar '&' _ l = m
    intro c hc
    simp only [replaceChar, List.mem_flatMap] at hc
    obtain ⟨x, _, hx⟩ := hc
    by_cases hxc : x = '<'
    · rw [if_pos hxc] at hx
      intro he
      rw [he] at hx
      simp at hx
    · rw [if_neg hxc] at hx
      simp only [List.mem_singleton] at hx
      rw [hx]
      exact hxc
  have step : ∀ (p : Char) (rep m : List Char), (∀ c ∈ rep, ¬ c = '<') →
      (∀ c ∈ m, ¬ c = '<') → ∀ c ∈ replaceChar p rep m, ¬ c = '<' := by
    intro p rep m hrep hm c hc
    simp only [replaceChar, List.mem_flatMap] at hc
    obtain ⟨x, hxm, hx⟩ := hc
    by_cases hxc : x = p
    · rw [if_pos hxc] at hx
      exact hrep c hx
    · rw [if_neg hxc] at hx
      simp only [List.mem_singleton] at hx
      rw [hx]
      exact hm x hxm
  exact step _ _ _ (by decide) (step _ _ _ (by decide) (step _ _ _ (by decide) h1))

/-! ### Substring search (the model of the extraction regex)

`isPrefixOfL pat s` is "`pat` starts at the head of `s`"; `splitFirst` cuts
at the first position where `pat` starts (what both `String.prototype.match`
with a non-global regex and the lazy group find); `mism pat t` witnesses a
character mismatch between `pat` and `t` inside their common length, and
`noStartIn pat t` says `pat` starts at no position of `t`, with the mismatch
inside `t` itself (so nothing appended after `t` can complete a match). -/

def isPrefixOfL : List Char → List Char → Bool
  | [], _ => true
  | _ :: _, [] => false
  | p :: ps, c :: cs => decide (p = c) && isPrefixOfL ps cs

def splitFirst (pat : List Char) : List Char → Option (List Char × List Char)
  | [] => if isPrefixOfL pat [] then some ([], []) else none
  | c :: cs =>
    if isPrefixOfL pat (c :: cs) then some ([], (c :: cs).drop pat.length)
    else
      match splitFirst pat cs with
      | some (pre, post) => some (c :: pre, post)
      | none => none

def mism : List Char → List Char → Bool
  | _, [] => false
  | [], _ => false
  | p :: ps, c :: cs => !(decide (p = c)) || mism ps cs

def noStartIn (pat : List Char) : List Char → Bool
  | [] => true
  | c :: cs => mism pat (c :: cs) && noStartIn pat cs

theorem mism_not_prefix (pat : List Char) : ∀ (t r : List Char),
    mism pat t = true → isPrefixOfL pat (t ++ r) = false := by
  induction pat with
  | nil => intro t r h; cases t <;> simp [mism] at h
  | cons p ps ih =>
    intro t r h
    cases t with
    | nil => simp [mism] at h
    | cons c cs =>
      simp only [mism, Bool.or_eq_true, Bool.not_eq_true'] at h
      rcases h with h | h
      · simp only [List.cons_append, isPrefixOfL, h, Bool.false_and]
      · have hr := ih cs r h
        simp only [List.cons_append, isPrefixOfL, List.append_eq, hr, Bool.and_false]

theorem isPrefixOfL_append (pat rest : List Char) :
    isPrefixOfL pat (pat ++ rest) = true := by
  induction pat with
  | nil => rfl
  | cons p ps ih => simp [isPrefixOfL, ih]

theorem splitFirst_skip (pat : List Char) : ∀ (t r : List Char),
    noStartIn pat t = true →
    splitFirst pat (t ++ r) =
      (splitFirst pat r).map (fun pr => (t ++ pr.1, pr.2)) := by
  intro t
  induction t with
  | nil =>
    intro r _
    cases hs : splitFirst pat r with
    | none => simp [hs]
    | some pr => simp [hs]
  | cons c cs ih =>
    intro r h
    simp only [noStartIn, Bool.and_eq_true] at h
    have hnp : isPrefixOfL pat (c :: (cs ++ r)) = false := by
      have := mism_not_prefix pat (c :: cs) r h.1
      simpa using this
    rw [show (c :: cs) ++ r = c :: (cs ++ r) from rfl]
    simp only [splitFirst, hnp, Bool.false_eq_true, if_false]
    rw [ih r h.2]
    cases hs : splitFirst pat r with
    | none => simp [hs]
    | some pr => simp [hs]

theorem splitFirst_at (pat rest : List Char) (h : ¬ pat = []) :
    splitFirst pat (pat ++ rest) = some ([], rest) := by
  cases pat with
  | nil => exact absurd rfl h
  | cons p ps =>
    show splitFirst (p :: ps) ((p :: ps) ++ rest) = some ([], rest)
    cases hpp : (p :: ps) ++ rest with
    | nil => simp at hpp
    | cons c cs =>
      simp only [splitFirst, ← hpp, isPrefixOfL_append, if_true]
      congr 1
      congr 1
      rw [List.drop_append_of_le_length (le_refl _)]
      simp

/-! ### The HTML templates of `generateStepsHtml` / `generateRecipeHtml`,
transcribed character for character from the TSX template literals -/

structure TypeStyle where
  bg : String
  border : String
  badge : String
  text : String

/-- `getTypeStyles()[step.type]`. -/
def getTypeStyles : StepType → TypeStyle
  | .prep => ⟨"#eff6ff", "#bfdbfe", "#dbeafe", "#1d4ed8"⟩
  | .cook => ⟨"#fff7ed", "#fed7aa", "#ffedd5", "#c2410c"⟩
  | .rest => ⟨"#faf5ff", "#e9d5ff", "#f3e8ff", "#7c3aed"⟩

/-- The timer badge (the `step.timerMinutes > 0` ternary, empty string
otherwise), identical in both step templates. -/
def timerSpan (s : Step) : String :=
  if 0 < s.timerMinutes then
    "<span style=\"font-size: 12px; color: #6b7280;\">" ++ escapeHtml (natToStr s.timerMinutes) ++ " min</span>"
  else ""

/-- One ingredient chip of a parallel-group step. -/
def parIngChip (ing : String) : String :=
  "\n                          <span style=\"background: rgba(255,255,255,0.7); border: 1px solid #e5e7eb; padding: 4px 8px; border-radius: 12px; font-size: 12px; color: #4b5563;\">\n                            " ++ escapeHtml ing ++ "\n                          </span>\n                        "

/-- The ingredients block of a parallel-group step. -/
def parIngBlock (s : Step) : String :=
  if 0 < s.ingredients.length then
    "\n                      <div style=\"display: flex; flex-wrap: wrap; gap: 8px; margin-top: 12px;\">\n                        " ++ String.join (s.ingredients.map parIngChip) ++ "\n                      </div>\n                    "
  else ""

/-- One step card inside a parallel group. -/
def parStepHtml (s : Step) : String :=
  let style := getTypeStyles s.type
  "\n                  <div style=\"background: " ++ style.bg ++
  "; border: 1px solid " ++ style.border ++
  "; border-radius: 12px; padding: 16px;\">\n                    <div style=\"display: flex; align-items: center; gap: 8px; margin-bottom: 12px;\">\n                      <div style=\"width: 32px; height: 32px; border-radius: 50%; background: " ++ style.badge ++
  "; color: " ++ style.text ++
  "; display: flex; align-items: center; justify-content: center; font-weight: 600; font-size: 14px;\">\n                        " ++ escapeHtml (natToStr s.stepNumber) ++
  "\n                      </div>\n                      <span style=\"background: " ++ style.badge ++
  "; color: " ++ style.text ++
  "; padding: 4px 8px; border-radius: 12px; font-size: 12px; font-weight: 500; text-transform: capitalize;\">\n                        " ++ escapeHtml (stepTypeStr s.type) ++
  "\n                      </span>\n                      " ++ timerSpan s ++
  "\n                    </div>\n                    <p style=\"color: #374151; line-height: 1.6; margin: 0;\">" ++ escapeHtml s.instruction ++
  "</p>\n                    " ++ parIngBlock s ++
  "\n                  </div>\n                "

/-- One ingredient chip of a sequential step. -/
def seqIngChip (ing : String) : String :=
  "\n                    <span style=\"background: rgba(255,255,255,0.7); border: 1px solid #e5e7eb; padding: 4px 8px; border-radius: 12px; font-size: 12px; color: #4b5563;\">\n                      " ++ escapeHtml ing ++ "\n                    </span>\n                  "

/-- The ingredients block of a sequential step. -/
def seqIngBlock (s : Step) : String :=
  if 0 < s.ingredients.length then
    "\n                <div style=\"display: flex; flex-wrap: wrap; gap: 8px; margin-top: 12px;\">\n                  " ++ String.join (s.ingredients.map seqIngChip) ++ "\n                </div>\n              "
  else ""

/-- One sequential (non-parallel) step card. -/
def seqStepHtml (s : Step) : String :=
  let style := getTypeStyles s.type
  "\n            <div style=\"background: " ++ style.bg ++
  "; border: 1px solid " ++ style.border ++
  "; border-radius: 12px; padding: 16px; margin-bottom: 16px;\">\n              <div style=\"display: flex; align-items: center; gap: 8px; margin-bottom: 12px;\">\n                <div style=\"width: 32px; height: 32px; border-radius: 50%; background: " ++ style.badge ++
  "; color: " ++ style.text ++
  "; display: flex; align-items: center; justify-content: center; font-weight: 600; font-size: 14px;\">\n                  " ++ escapeHtml (natToStr s.stepNumber) ++
  "\n                </div>\n                <span style=\"background: " ++ style.badge ++
  "; color: " ++ style.text ++
  "; padding: 4px 8px; border-radius: 12px; font-size: 12px; font-weight: 500; text-transform: capitalize;\">\n                  " ++ escapeHtml (stepTypeStr s.type) ++
  "\n                </span>\n                " ++ timerSpan s ++
  "\n              </div>\n              <p style=\"color: #374151; line-height: 1.6; margin: 0;\">" ++ escapeHtml s.instruction ++
  "</p>\n              " ++ seqIngBlock s ++
  "\n            </div>\n          "

/-- `generateStepsHtml`: map each flow group (a parallel group wraps its
step cards in the dashed container); every join uses the empty separator. -/
def generateStepsHtml (r : Recipe) : String :=
  String.join (r.flowGroups.map (fun group =>
    if group.parallel then
      "\n          <div style=\"border: 2px dashed #fcd34d; border-radius: 12px; padding: 16px; background: rgba(254, 243, 199, 0.3); margin-bottom: 16px;\">\n            <div style=\"display: flex; align-items: center; gap: 8px; color: #b45309; margin-bottom: 16px;\">\n              <svg width=\"16\" height=\"16\" viewBox=\"0 0 24 24\" fill=\"none\" stroke=\"currentColor\" stroke-width=\"2\"><line x1=\"6\" y1=\"3\" x2=\"6\" y2=\"15\"/><circle cx=\"18\" cy=\"6\" r=\"3\"/><circle cx=\"6\" cy=\"18\" r=\"3\"/><path d=\"M18 9a9 9 0 0 1-9 9\"/></svg>\n              <span style=\"font-size: 14px; font-weight: 500;\">These can be done in parallel</span>\n            </div>\n            <div style=\"display: grid; grid-template-columns: repeat(auto-fit, minmax(250px, 1fr)); gap: 12px;\">\n              " ++ String.join (group.steps.map parStepHtml) ++ "\n            </div>\n          </div>\n        "
    else
      String.join (group.steps.map seqStepHtml)))

/-- An image content entry becomes the fixed placeholder, an object with
only `type` and `text`; other entries pass through unchanged. -/
def stripContent (c : MessageContent) : MessageContent :=
  if c.type = ContentType.image then ⟨.image, some "[image]", none, none⟩ else c

/-- One message of `stripImagesFromConversation`: string content passes
through; an array of content parts is mapped by `stripContent`. -/
def stripMessage (m : Message) : Message :=
  match m.content with
  | .str _ => m
  | .parts cs => ⟨m.role, .parts (cs.map stripContent)⟩

def stripImagesFromConversation (ms : List Message) : List Message :=
  ms.map stripMessage

/-- `prepareRecipeForExport`: strip images from `conversationHistory` when
it is present (an array, even empty, is truthy). -/
def prepareRecipeForExport (r : Recipe) : Recipe :=
  match r.conversationHistory with
  | none => r
  | some ms => { r with conversationHistory := some (stripImagesFromConversation ms) }

/-- The servings line (the `recipe.servings` ternary: absent or `0` is
falsy, giving the empty string). -/
def servingsDiv (r : Recipe) : String :=
  match r.servings with
  | none => ""
  | some n =>
    if ¬ n = 0 then
      "<div class=\"servings\"><svg width=\"16\" height=\"16\" viewBox=\"0 0 24 24\" fill=\"none\" stroke=\"currentColor\" stroke-width=\"2\"><path d=\"M16 21v-2a4 4 0 0 0-4-4H6a4 4 0 0 0-4 4v2\"/><circle cx=\"9\" cy=\"7\" r=\"4\"/><path d=\"M22 21v-2a4 4 0 0 0-3-3.87\"/><path d=\"M16 3.13a4 4 0 0 1 0 7.75\"/></svg>" ++ escapeHtml (natToStr n) ++ "</div>"
    else ""

/-- `generateRecipeHtml`: the full document, with the recipe (images
stripped) embedded as pretty-printed JSON in the `recipe-data` script tag;
the visible step cards use the *original* recipe. -/
def generateRecipeHtml (recipe : Recipe) : String :=
  let exportableRecipe := prepareRecipeForExport recipe
  let stepsHTML := generateStepsHtml recipe
  let recipeJson := jsonStringify true (recipeToJson exportableRecipe)
  "<!DOCTYPE html>\n<html lang=\"en\">\n<head>\n  <meta charset=\"UTF-8\">\n  <meta name=\"viewport\" content=\"width=device-width, initial-scale=1.0\">\n  <title>" ++ escapeHtml recipe.title ++
  " - Recipe Flow</title>\n  <script type=\"application/json\" id=\"recipe-data\">\n" ++ recipeJson ++
  "\n  </script>\n  <style>\n    * \x7b box-sizing: border-box; margin: 0; padding: 0; \x7d\n    body \x7b\n      font-family: -apple-system, BlinkMacSystemFont, \x27Segoe UI\x27, Roboto, sans-serif;\n      background: linear-gradient(135deg, #fef3c7 0%, #fcd34d 50%, #f97316 100%);\n      min-height: 100vh;\n      padding: 24px;\n    \x7d\n    .container \x7b max-width: 800px; margin: 0 auto; \x7d\n    .card \x7b background: white; border-radius: 16px; padding: 24px; box-shadow: 0 4px 6px rgba(0,0,0,0.1); \x7d\n    h1 \x7b color: #1f2937; font-size: 24px; margin-bottom: 8px; \x7d\n    .servings \x7b color: #6b7280; font-size: 14px; margin-bottom: 24px; display: flex; align-items: center; gap: 8px; \x7d\n  </style>\n</head>\n<body>\n  <div class=\"container\">\n    <div class=\"card\">\n      <h1>" ++ escapeHtml recipe.title ++
  "</h1>\n      " ++ servingsDiv recipe ++
  "\n      " ++ stepsHTML ++
  "\n    </div>\n  </div>\n</body>\n</html>"

/-! ### Reading a recipe back out of an exported document -/

/-- The script open tag as `generateRecipeHtml` writes it (the extraction
regex allows any run of whitespace where this literal has one space; the
generated document always contains exactly this text). -/
def scriptOpen : String := "<script type=\"application/json\" id=\"recipe-data\">"

def scriptClose : String := "</script>"

/-- The regex extraction: the first position where the open tag matches,
then the lazy `[\s\S]*?` runs to the *first* close tag; the surrounding
whitespace is stripped (the regex `\s*` boundaries together with the
`.trim()` call amount to trimming the between-text). -/
def extractRecipeData (html : String) : Option String :=
  match splitFirst scriptOpen.data html.data with
  | none => none
  | some (_, rest) =>
    match splitFirst scriptClose.data rest with
    | none => none
    | some (mid, _) => some (jsTrim ⟨mid⟩)

/-- JavaScript truthiness of a property access on parsed JSON (`none` is
`undefined`). -/
def jsTruthy : Option Json → Bool
  | none => false
  | some (.str s) => decide (¬ s = "")
  | some (.num n) => decide (¬ n = 0)
  | some (.jbool b) => b
  | some .jnull => false
  | some (.arr _) => true
  | some (.obj _) => true

/-- `Array.isArray(recipe.flowGroups)`. -/
def isArrayJson : Option Json → Bool
  | some (.arr _) => true
  | _ => false

/-- `parseRecipeFromHtml`: extract the embedded JSON, `JSON.parse` it
(failure, including a truncated extraction, is caught → `null`), then the
basic validation `!recipe.title || !Array.isArray(recipe.flowGroups)`.
The result is the parsed JSON value (the TS code casts it to `Recipe`
without further checks). -/
def parseRecipeFromHtml (html : String) : Option Json :=
  match extractRecipeData html with
  | none => none
  | some txt =>
    match jsonParse txt with
    | none => none
    | some j =>
      if jsTruthy (getProp j "title") && isArrayJson (getProp j "flowGroups") then some j
      else none

/-- `generateExportFilename`: the stored slug when truthy, else the title
lower-cased with whitespace runs replaced by hyphens (note: *not*
`generateSlug`), plus `.html`. -/
def generateExportFilename (recipe : Recipe) : String :=
  let slug := jsOrStr recipe.slug
    ⟨squashRuns isJsWs '-' false (jsToLower recipe.title).data⟩
  slug ++ ".html"

/-! ### Locating the embedded JSON in a generated document -/

theorem mism_append (pat : List Char) : ∀ (t r : List Char), mism pat t = true →
    mism pat (t ++ r) = true := by
  induction pat with
  | nil => intro t r h; cases t <;> simp [mism] at h
  | cons p ps ih =>
    intro t r h
    cases t with
    | nil => simp [mism] at h
    | cons c cs =>
      simp only [mism, Bool.or_eq_true, Bool.not_eq_true'] at h ⊢
      rcases h with h | h
      · exact Or.inl h
      · exact Or.inr (ih cs r h)

theorem noStartIn_append (pat : List Char) : ∀ (x y : List Char),
    noStartIn pat x = true → noStartIn pat y = true →
    noStartIn pat (x ++ y) = true := by
  intro x
  induction x with
  | nil => intro y _ hy; exact hy
  | cons c cs ih =>
    intro y hx hy
    simp only [noStartIn, Bool.and_eq_true] at hx
    show noStartIn pat (c :: (cs ++ y)) = true
    simp only [noStartIn, Bool.and_eq_true]
    exact ⟨by rw [show c :: (cs ++ y) = (c :: cs) ++ y from rfl]
              exact mism_append pat (c :: cs) y hx.1,
           ih y hx.2 hy⟩

/-- When the pattern opens with a character no element of `x` has, the
pattern starts nowhere in `x`. -/
theorem noStartIn_of_head (p : Char) (ps : List Char) : ∀ (x : List Char),
    (∀ c ∈ x, ¬ c = p) → noStartIn (p :: ps) x = true := by
  intro x
  induction x with
  | nil => intro _; rfl
  | cons c cs ih =>
    intro h
    simp only [noStartIn, Bool.and_eq_true]
    refine ⟨?_, ih fun d hd => h d (List.mem_cons.mpr (Or.inr hd))⟩
    simp only [mism, Bool.or_eq_true, Bool.not_eq_true']
    exact Or.inl (decide_eq_false fun e => h c (List.mem_cons.mpr (Or.inl rfl)) e.symm)

/-- Trimming whitespace padding around a block whose first and last
characters are not whitespace. -/
theorem jsTrim_pad (core pre post : List Char) (c0 : Char) (core' : List Char)
    (cl : Char) (init : List Char)
    (hh : core = c0 :: core') (hc0 : isJsWs c0 = false)
    (hl : core = init ++ [cl]) (hcl : isJsWs cl = false)
    (hpre : ∀ c ∈ pre, isJsWs c = true) (hpost : ∀ c ∈ post, isJsWs c = true) :
    jsTrim ⟨pre ++ core ++ post⟩ = ⟨core⟩ := by
  show (⟨((pre ++ core ++ post).dropWhile isJsWs).reverse.dropWhile isJsWs |>.reverse⟩ :
    String) = ⟨core⟩
  have h1 : (pre ++ core ++ post).dropWhile isJsWs = core ++ post := by
    rw [List.append_assoc]
    rw [List.dropWhile_append]
    have : (pre.dropWhile isJsWs) = [] := List.dropWhile_eq_nil_iff.mpr hpre
    rw [this]
    simp only [List.isEmpty_nil, if_true]
    rw [hh, List.cons_append, List.dropWhile_cons_of_neg (by simp [hc0])]
  rw [h1]
  have h2 : (core ++ post).reverse.dropWhile isJsWs = core.reverse := by
    rw [List.reverse_append, List.dropWhile_append]
    have : (post.reverse.dropWhile isJsWs) = [] :=
      List.dropWhile_eq_nil_iff.mpr (fun c hc => hpost c (List.mem_reverse.mp hc))
    rw [this]
    simp only [List.isEmpty_nil, if_true]
    rw [hl, List.reverse_append]
    simp only [List.reverse_singleton, List.singleton_append]
    rw [List.dropWhile_cons_of_neg (by simp [hcl])]
  rw [h2, List.reverse_reverse]

/-- A pretty-printed non-empty JSON object starts with a brace and ends
with a brace. -/
theorem serJson_obj_shape (d : Nat) (k : String) (v : Json) (fs : JsonFields) :
    serJson true d (.obj (.cons k v fs)) =
      '\x7b' :: ('\n' :: (serObjItems true (d + 1) (.cons k v fs) ++ '\n' :: jpad d))
        ++ ['\x7d'] := by
  simp [serJson]

/-- The fields of `recipeToJson` after the leading `title` entry (used to
expose the object shape of the serialized recipe). -/
def recipeFieldsTail (r : Recipe) : JsonFields :=
  optField "servings" (r.servings.map Json.num)
    (optField "ingredients" (r.ingredients.map strArr)
      (optField "equipment" (r.equipment.map strArr)
        (.cons "flowGroups" (.arr (jl (r.flowGroups.map flowGroupToJson)))
          (optField "slug" (r.slug.map Json.str)
            (optField "savedAt" (r.savedAt.map Json.str)
              (optField "conversationHistory"
                (r.conversationHistory.map
                  (fun ms => .arr (jl (ms.map messageToJson))))
                (optField "measureSystem"
                  (r.measureSystem.map (fun m => Json.str (measureSystemStr m)))
                  (optField "servingsCount" (r.servingsCount.map Json.num)
                    .nil))))))))

theorem recipeToJson_shape (r : Recipe) :
    recipeToJson r = .obj (.cons "title" (.str r.title) (recipeFieldsTail r)) := rfl

/-- The serialized recipe object, decomposed for trimming: it opens with
the brace and closes with the brace, neither of which is whitespace. -/
theorem serRecipe_shape (r : Recipe) :
    serJson true 0 (recipeToJson r) =
      '\x7b' :: ('\n' :: (serObjItems true 1
          (.cons "title" (.str r.title) (recipeFieldsTail r)) ++ ['\n'])) ++
        ['\x7d'] := by
  rw [recipeToJson_shape]
  rw [serJson_obj_shape]
  simp [jpad]

set_option maxRecDepth 40000
set_option maxHeartbeats 2000000

/-- In a generated document the first match of the extraction regex is the
real `recipe-data` script tag, and the lazy group ends at the first close
tag: provided the serialized JSON itself contains no close-tag start, the
extraction returns exactly the embedded pretty JSON. -/
theorem extract_generate (r : Recipe)
    (hns : noStartIn scriptClose.data
      (serJson true 0 (recipeToJson (prepareRecipeForExport r))) = true) :
    extractRecipeData (generateRecipeHtml r) =
      some (jsonStringify true (recipeToJson (prepareRecipeForExport r))) := by
  have hg : generateRecipeHtml r =
      "<!DOCTYPE html>\n<html lang=\"en\">\n<head>\n  <meta charset=\"UTF-8\">\n  <meta name=\"viewport\" content=\"width=device-width, initial-scale=1.0\">\n  <title>" ++ escapeHtml r.title ++
      " - Recipe Flow</title>\n  <script type=\"application/json\" id=\"recipe-data\">\n" ++ jsonStringify true (recipeToJson (prepareRecipeForExport r)) ++
      "\n  </script>\n  <style>\n    * \x7b box-sizing: border-box; margin: 0; padding: 0; \x7d\n    body \x7b\n      font-family: -apple-system, BlinkMacSystemFont, \x27Segoe UI\x27, Roboto, sans-serif;\n      background: linear-gradient(135deg, #fef3c7 0%, #fcd34d 50%, #f97316 100%);\n      min-height: 100vh;\n      padding: 24px;\n    \x7d\n    .container \x7b max-width: 800px; margin: 0 auto; \x7d\n    .card \x7b background: white; border-radius: 16px; padding: 24px; box-shadow: 0 4px 6px rgba(0,0,0,0.1); \x7d\n    h1 \x7b color: #1f2937; font-size: 24px; margin-bottom: 8px; \x7d\n    .servings \x7b color: #6b7280; font-size: 14px; margin-bottom: 24px; display: flex; align-items: center; gap: 8px; \x7d\n  </style>\n</head>\n<body>\n  <div class=\"container\">\n    <div class=\"card\">\n      <h1>" ++ escapeHtml r.title ++
      "</h1>\n      " ++ servingsDiv r ++
      "\n      " ++ generateStepsHtml r ++
      "\n    </div>\n  </div>\n</body>\n</html>" := rfl
  have hM2 : (" - Recipe Flow</title>\n  <script type=\"application/json\" id=\"recipe-data\">\n" : String).data =
      (" - Recipe Flow</title>\n  " : String).data ++ scriptOpen.data ++ ['\n'] := by decide
  have hM4 : ("\n  </script>\n  <style>\n    * \x7b box-sizing: border-box; margin: 0; padding: 0; \x7d\n    body \x7b\n      font-family: -apple-system, BlinkMacSystemFont, \x27Segoe UI\x27, Roboto, sans-serif;\n      background: linear-gradient(135deg, #fef3c7 0%, #fcd34d 50%, #f97316 100%);\n      min-height: 100vh;\n      padding: 24px;\n    \x7d\n    .container \x7b max-width: 800px; margin: 0 auto; \x7d\n    .card \x7b background: white; border-radius: 16px; padding: 24px; box-shadow: 0 4px 6px rgba(0,0,0,0.1); \x7d\n    h1 \x7b color: #1f2937; font-size: 24px; margin-bottom: 8px; \x7d\n    .servings \x7b color: #6b7280; font-size: 14px; margin-bottom: 24px; display: flex; align-items: center; gap: 8px; \x7d\n  </style>\n</head>\n<body>\n  <div class=\"container\">\n    <div class=\"card\">\n      <h1>" : String).data =
      ['\n', ' ', ' '] ++ scriptClose.data ++ ("\n  <style>\n    * \x7b box-sizing: border-box; margin: 0; padding: 0; \x7d\n    body \x7b\n      font-family: -apple-system, BlinkMacSystemFont, \x27Segoe UI\x27, Roboto, sans-serif;\n      background: linear-gradient(135deg, #fef3c7 0%, #fcd34d 50%, #f97316 100%);\n      min-height: 100vh;\n      padding: 24px;\n    \x7d\n    .container \x7b max-width: 800px; margin: 0 auto; \x7d\n    .card \x7b background: white; border-radius: 16px; padding: 24px; box-shadow: 0 4px 6px rgba(0,0,0,0.1); \x7d\n    h1 \x7b color: #1f2937; font-size: 24px; margin-bottom: 8px; \x7d\n    .servings \x7b color: #6b7280; font-size: 14px; margin-bottom: 24px; display: flex; align-items: center; gap: 8px; \x7d\n  </style>\n</head>\n<body>\n  <div class=\"container\">\n    <div class=\"card\">\n      <h1>" : String).data := by decide
  have hpre : noStartIn scriptOpen.data
      (("<!DOCTYPE html>\n<html lang=\"en\">\n<head>\n  <meta charset=\"UTF-8\">\n  <meta name=\"viewport\" content=\"width=device-width, initial-scale=1.0\">\n  <title>" : String).data ++ ((escapeHtml r.title).data ++
        (" - Recipe Flow</title>\n  " : String).data)) = true := by
    refine noStartIn_append _ _ _ (by decide) (noStartIn_append _ _ _ ?_ (by decide))
    exact noStartIn_of_head '<' _ _ (fun c hc => escapeHtml_no_lt r.title c hc)
  have htrim : jsTrim ⟨['\n'] ++ (serJson true 0 (recipeToJson (prepareRecipeForExport r)) ++ ['\n', ' ', ' '])⟩ =
      ⟨serJson true 0 (recipeToJson (prepareRecipeForExport r))⟩ := by
    refine jsTrim_pad (serJson true 0 (recipeToJson (prepareRecipeForExport r)))
      ['\n'] ['\n', ' ', ' '] '\x7b'
      (('\n' :: (serObjItems true 1
          (.cons "title" (.str (prepareRecipeForExport r).title)
            (recipeFieldsTail (prepareRecipeForExport r))) ++ ['\n'])) ++
        ['\x7d'])
      '\x7d'
      ('\x7b' :: ('\n' :: (serObjItems true 1
          (.cons "title" (.str (prepareRecipeForExport r).title)
            (recipeFieldsTail (prepareRecipeForExport r))) ++ ['\n'])))
      ?_ (by decide) ?_ (by decide) (by decide) (by decide)
    · rw [serRecipe_shape]
      simp
    · rw [serRecipe_shape]
  have hdoc : (generateRecipeHtml r).data =
      (("<!DOCTYPE html>\n<html lang=\"en\">\n<head>\n  <meta charset=\"UTF-8\">\n  <meta name=\"viewport\" content=\"width=device-width, initial-scale=1.0\">\n  <title>" : String).data ++ ((escapeHtml r.title).data ++
        (" - Recipe Flow</title>\n  " : String).data)) ++
      (scriptOpen.data ++
        ((['\n'] ++ (serJson true 0 (recipeToJson (prepareRecipeForExport r)) ++
          ['\n', ' ', ' '])) ++
         (scriptClose.data ++
          (("\n  <style>\n    * \x7b box-sizing: border-box; margin: 0; padding: 0; \x7d\n    body \x7b\n      font-family: -apple-system, BlinkMacSystemFont, \x27Segoe UI\x27, Roboto, sans-serif;\n      background: linear-gradient(135deg, #fef3c7 0%, #fcd34d 50%, #f97316 100%);\n      min-height: 100vh;\n      padding: 24px;\n    \x7d\n    .container \x7b max-width: 800px; margin: 0 auto; \x7d\n    .card \x7b background: white; border-radius: 16px; padding: 24px; box-shadow: 0 4px 6px rgba(0,0,0,0.1); \x7d\n    h1 \x7b color: #1f2937; font-size: 24px; margin-bottom: 8px; \x7d\n    .servings \x7b color: #6b7280; font-size: 14px; margin-bottom: 24px; display: flex; align-items: center; gap: 8px; \x7d\n  </style>\n</head>\n<body>\n  <div class=\"container\">\n    <div class=\"card\">\n      <h1>" : String).data ++ ((escapeHtml r.title).data ++
           (("</h1>\n      " : String).data ++ ((servingsDiv r).data ++
            (("\n      " : String).data ++ ((generateStepsHtml r).data ++
             ("\n    </div>\n  </div>\n</body>\n</html>" : String).data))))))))) := by
    rw [hg]
    simp only [String.data_append, hM2, hM4, List.append_assoc]
    rfl
  generalize hA : ("<!DOCTYPE html>\n<html lang=\"en\">\n<head>\n  <meta charset=\"UTF-8\">\n  <meta name=\"viewport\" content=\"width=device-width, initial-scale=1.0\">\n  <title>" : String).data = A at hdoc hpre
  generalize hB : (escapeHtml r.title).data = B at hdoc hpre
  generalize hC : (" - Recipe Flow</title>\n  " : String).data = C at hdoc hpre
  generalize hD : ("\n  <style>\n    * \x7b box-sizing: border-box; margin: 0; padding: 0; \x7d\n    body \x7b\n      font-family: -apple-system, BlinkMacSystemFont, \x27Segoe UI\x27, Roboto, sans-serif;\n      background: linear-gradient(135deg, #fef3c7 0%, #fcd34d 50%, #f97316 100%);\n      min-height: 100vh;\n      padding: 24px;\n    \x7d\n    .container \x7b max-width: 800px; margin: 0 auto; \x7d\n    .card \x7b background: white; border-radius: 16px; padding: 24px; box-shadow: 0 4px 6px rgba(0,0,0,0.1); \x7d\n    h1 \x7b color: #1f2937; font-size: 24px; margin-bottom: 8px; \x7d\n    .servings \x7b color: #6b7280; font-size: 14px; margin-bottom: 24px; display: flex; align-items: center; gap: 8px; \x7d\n  </style>\n</head>\n<body>\n  <div class=\"container\">\n    <div class=\"card\">\n      <h1>" : String).data = D at hdoc
  generalize hE : ("</h1>\n      " : String).data = E at hdoc
  generalize hF : (servingsDiv r).data = F at hdoc
  generalize hG : ("\n      " : String).data = G at hdoc
  generalize hH : (generateStepsHtml r).data = H at hdoc
  generalize hI : ("\n    </div>\n  </div>\n</body>\n</html>" : String).data = I at hdoc
  have h1 : splitFirst scriptOpen.data (generateRecipeHtml r).data =
      some ((A ++ (B ++ C)) ++ [],
        (['\n'] ++ (serJson true 0 (recipeToJson (prepareRecipeForExport r)) ++
          ['\n', ' ', ' '])) ++
         (scriptClose.data ++
          (D ++ (B ++ (E ++ (F ++ (G ++ (H ++ I)))))))) := by
    rw [hdoc, splitFirst_skip _ _ _ hpre, splitFirst_at _ _ (by decide)]
    rfl
  have h2 : splitFirst scriptClose.data
      ((['\n'] ++ (serJson true 0 (recipeToJson (prepareRecipeForExport r)) ++
          ['\n', ' ', ' '])) ++
         (scriptClose.data ++
          (D ++ (B ++ (E ++ (F ++ (G ++ (H ++ I)))))))) =
      some (['\n'] ++ (serJson true 0 (recipeToJson (prepareRecipeForExport r)) ++ ['\n', ' ', ' ']),
        D ++ (B ++ (E ++ (F ++ (G ++ (H ++ I)))))) := by
    simp only [List.append_assoc]
    rw [splitFirst_skip _ ['\n'] _ (by decide)]
    rw [splitFirst_skip _ _ _ hns]
    rw [splitFirst_skip _ ['\n', ' ', ' '] _ (by decide)]
    rw [splitFirst_at _ _ (by decide)]
    simp
  unfold extractRecipeData
  rw [h1]
  show (match splitFirst scriptClose.data
      ((['\n'] ++ (serJson true 0 (recipeToJson (prepareRecipeForExport r)) ++
          ['\n', ' ', ' '])) ++
         (scriptClose.data ++
          (D ++ (B ++ (E ++ (F ++ (G ++ (H ++ I)))))))) with
      | none => none
      | some (mid, _) => some (jsTrim ⟨mid⟩)) =
    some (jsonStringify true (recipeToJson (prepareRecipeForExport r)))
  rw [h2]
  show some (jsTrim ⟨['\n'] ++ (serJson true 0 (recipeToJson (prepareRecipeForExport r)) ++ ['\n', ' ', ' '])⟩) =
    some (jsonStringify true (recipeToJson (prepareRecipeForExport r)))
  rw [htrim]
  rfl

theorem prepare_title (r : Recipe) : (prepareRecipeForExport r).title = r.title := by
  unfold prepareRecipeForExport
  cases r.conversationHistory <;> rfl

theorem lookupField_title (r : Recipe) :
    lookupField (.cons "title" (.str r.title) (recipeFieldsTail r)) "title" =
      some (.str r.title) := by
  refine lookupField_cons_self _ _ ?_
  simp [recipeFieldsTail, lookupField_optField_ne, lookupField_cons_ne, lookupField]

theorem lookupField_flowGroups (r : Recipe) :
    lookupField (.cons "title" (.str r.title) (recipeFieldsTail r)) "flowGroups" =
      some (.arr (jl (r.flowGroups.map flowGroupToJson))) := by
  rw [lookupField_cons_ne (by decide)]
  simp [recipeFieldsTail, lookupField_optField_ne, lookupField_optField_self,
    lookupField_cons_self, lookupField]

/-- Parsing back a generated document yields exactly the embedded JSON
object (the serialized image-stripped recipe), provided the recipe has a
truthy title and its JSON contains no close-tag start. -/
theorem parse_generate (r : Recipe)
    (hns : noStartIn scriptClose.data
      (serJson true 0 (recipeToJson (prepareRecipeForExport r))) = true)
    (ht : ¬ r.title = "") :
    parseRecipeFromHtml (generateRecipeHtml r) =
      some (recipeToJson (prepareRecipeForExport r)) := by
  unfold parseRecipeFromHtml
  rw [extract_generate r hns]
  show (match jsonParse (jsonStringify true (recipeToJson (prepareRecipeForExport r))) with
    | none => none
    | some j =>
      if jsTruthy (getProp j "title") && isArrayJson (getProp j "flowGroups") then some j
      else none) = some (recipeToJson (prepareRecipeForExport r))
  rw [jsonParse_stringify]
  show (if jsTruthy (getProp (recipeToJson (prepareRecipeForExport r)) "title") &&
      isArrayJson (getProp (recipeToJson (prepareRecipeForExport r)) "flowGroups") then
      some (recipeToJson (prepareRecipeForExport r)) else none) =
    some (recipeToJson (prepareRecipeForExport r))
  rw [recipeToJson_shape]
  show (if jsTruthy (lookupField
        (.cons "title" (.str (prepareRecipeForExport r).title)
          (recipeFieldsTail (prepareRecipeForExport r))) "title") &&
      isArrayJson (lookupField
        (.cons "title" (.str (prepareRecipeForExport r).title)
          (recipeFieldsTail (prepareRecipeForExport r))) "flowGroups") then
      _ else none) = _
  rw [lookupField_title, lookupField_flowGroups]
  have htt : (prepareRecipeForExport r).title = r.title := prepare_title r
  simp [jsTruthy, isArrayJson, htt, ht]

/-! ### Image stripping facts -/

theorem map_id_of_eq {α : Type} (f : α → α) : ∀ l : List α,
    (∀ x ∈ l, f x = x) → l.map f = l := by
  intro l
  induction l with
  | nil => intro _; rfl
  | cons a as ih =>
    intro hall
    simp only [List.map_cons, hall a (List.mem_cons.mpr (Or.inl rfl)),
      ih (fun c hc => hall c (List.mem_cons.mpr (Or.inr hc)))]

/-- Does the conversation history hold any image-type content entry? -/
def hasImageContent (r : Recipe) : Bool :=
  match r.conversationHistory with
  | none => false
  | some ms => ms.any (fun m =>
      match m.content with
      | .str _ => false
      | .parts cs => cs.any (fun c => decide (c.type = ContentType.image)))

theorem stripMessage_id {m : Message}
    (h : (match m.content with
          | .str _ => false
          | .parts cs => cs.any (fun c => decide (c.type = ContentType.image))) = false) :
    stripMessage m = m := by
  obtain ⟨ro, co⟩ := m
  cases co with
  | str s => rfl
  | parts cs =>
    simp only [List.any_eq_false, decide_eq_true_eq] at h
    show (⟨ro, .parts (cs.map stripContent)⟩ : Message) = ⟨ro, .parts cs⟩
    have : cs.map stripContent = cs := by
      refine map_id_of_eq _ _ ?_
      intro c hc
      unfold stripContent
      rw [if_neg (h c hc)]
    rw [this]

theorem prepare_id {r : Recipe} (h : hasImageContent r = false) :
    prepareRecipeForExport r = r := by
  unfold prepareRecipeForExport hasImageContent at *
  cases hc : r.conversationHistory with
  | none => rfl
  | some ms =>
    rw [hc] at h
    simp only [List.any_eq_false] at h
    have : stripImagesFromConversation ms = ms := by
      refine map_id_of_eq _ _ ?_
      intro m hm
      exact stripMessage_id (by
        have := h m hm
        cases hmc : m.content with
        | str s => rfl
        | parts cs =>
          rw [hmc] at this
          simp only [Bool.not_eq_true] at this
          exact this)
    show { r with conversationHistory := some (stripImagesFromConversation ms) } = r
    rw [this, ← hc]

theorem sortC_singleton (x : Recipe) : sortC [x] = [x] := rfl

/-! ## The claims -/

/-- Concrete recipes used to instantiate the claims. -/
def wRecipe : Recipe :=
  ⟨"Garlic Butter Pasta", some 2, some ["pasta", "butter"], some ["pot"],
   [⟨false, [⟨1, .prep, "Boil the pasta", ["pasta"], some ["pot"], 8⟩]⟩,
    ⟨true, [⟨2, .cook, "Melt butter", ["butter"], none, 2⟩,
            ⟨3, .rest, "Rest", [], none, 0⟩]⟩],
   some "garlic-butter-pasta", some "2024-01-01T00:00:00.000Z",
   some [⟨.user, .str "make pasta"⟩,
         ⟨.assistant, .parts [⟨.text, some "ok", none, none⟩]⟩],
   some .metric, some 2⟩

/-- A recipe whose title smuggles a close tag into the embedded JSON. -/
def scriptRecipe : Recipe :=
  ⟨"a</script>b", none, none, none, [⟨false, []⟩], none, none, none, none, none⟩

/-- C1: for every recipe without conversation-history images,
`parseRecipeFromHtml(generateRecipeHtml(r))` reproduces every field of `r`
exactly.  CORRECTED: this fails when the serialized recipe contains the
text `</script>` (the lazy extraction regex stops at the first close tag,
truncating the JSON) and when the title is empty (the `!recipe.title`
validation rejects it).  Amended with the hypotheses that the title is
truthy and that the embedded JSON contains no close-tag start, the
round-trip is exact: the parsed JSON is precisely the serialized recipe,
and decoding it recovers every field of `r`. -/
theorem C1_html_roundtrip (r : Recipe)
    (himg : hasImageContent r = false)
    (ht : ¬ r.title = "")
    (hns : noStartIn scriptClose.data (serJson true 0 (recipeToJson r)) = true) :
    parseRecipeFromHtml (generateRecipeHtml r) = some (recipeToJson r) ∧
    jsonToRecipe (recipeToJson r) = some r := by
  have hp := prepare_id himg
  constructor
  · have := parse_generate r (by rw [hp]; exact hns) ht
    rwa [hp] at this
  · exact jsonToRecipe_inv r

/-- C1 witness: the round-trip holds at a concrete image-free recipe. -/
theorem C1_html_roundtrip_witness :
    hasImageContent wRecipe = false ∧ ¬ wRecipe.title = "" ∧
    noStartIn scriptClose.data (serJson true 0 (recipeToJson wRecipe)) = true ∧
    (parseRecipeFromHtml (generateRecipeHtml wRecipe) = some (recipeToJson wRecipe) ∧
     jsonToRecipe (recipeToJson wRecipe) = some wRecipe) :=
  ⟨by decide, by decide, by decide,
   C1_html_roundtrip wRecipe (by decide) (by decide) (by decide)⟩

/-- C1 counterexample: an image-free recipe with a truthy title whose
title contains `</script>`; the claimed round-trip returns `null`. -/
theorem C1_html_roundtrip_cex :
    hasImageContent scriptRecipe = false ∧ ¬ scriptRecipe.title = "" ∧
    parseRecipeFromHtml (generateRecipeHtml scriptRecipe) = none := by
  refine ⟨by decide, by decide, ?_⟩
  rfl

/-! ### C5: the slug pipeline -/

/-- The first four steps of the spec description of `generateSlug`
(lowercase, strip `[^a-z0-9\s-]`, whitespace runs to one hyphen, collapse
hyphen runs), *without* the final "removes leading and trailing hyphens"
step the spec adds. -/
def slugPipelineNoTrim (title : String) : String :=
  ⟨squashRuns (· = '-') '-' false
    (squashRuns isJsWs '-' false
      ((jsToLower title).data.filter isSlugKeep))⟩

theorem squashRuns_mem (p : Char → Bool) (rep : Char) : ∀ (b : Bool) (l : List Char),
    ∀ c ∈ squashRuns p rep b l, c = rep ∨ (c ∈ l ∧ p c = false) := by
  intro b l
  induction l generalizing b with
  | nil => intro c hc; simp [squashRuns] at hc
  | cons x xs ih =>
    intro c hc
    simp only [squashRuns] at hc
    by_cases hx : p x
    · rw [if_pos hx] at hc
      cases b with
      | true =>
        rcases ih true c hc with h | h
        · exact Or.inl h
        · exact Or.inr ⟨List.mem_cons.mpr (Or.inr h.1), h.2⟩
      | false =>
        rcases List.mem_cons.mp hc with h | h
        · exact Or.inl h
        · rcases ih true c h with h' | h'
          · exact Or.inl h'
          · exact Or.inr ⟨List.mem_cons.mpr (Or.inr h'.1), h'.2⟩
    · rw [if_neg hx] at hc
      rcases List.mem_cons.mp hc with h | h
      · subst h
        exact Or.inr ⟨List.mem_cons.mpr (Or.inl rfl), by simpa using hx⟩
      · rcases ih false c h with h' | h'
        · exact Or.inl h'
        · exact Or.inr ⟨List.mem_cons.mpr (Or.inr h'.1), h'.2⟩

theorem jsTrim_id (l : List Char) (h : ∀ c ∈ l, isJsWs c = false) :
    jsTrim ⟨l⟩ = ⟨l⟩ := by
  show (⟨((l.dropWhile isJsWs).reverse.dropWhile isJsWs).reverse⟩ : String) = ⟨l⟩
  have h1 : l.dropWhile isJsWs = l := by
    cases l with
    | nil => rfl
    | cons x xs => exact List.dropWhile_cons_of_neg (by simp [h x (by simp)])
  rw [h1]
  have h2 : l.reverse.dropWhile isJsWs = l.reverse := by
    cases hr : l.reverse with
    | nil => rfl
    | cons x xs =>
      refine List.dropWhile_cons_of_neg ?_
      have : x ∈ l := by
        rw [← List.mem_reverse, hr]
        simp
      simp [h x this]
  rw [h2, List.reverse_reverse]

/-- C5: `generateSlug` lowercases, strips, collapses whitespace and hyphen
runs.  CORRECTED: the final `.trim()` strips *whitespace*, not hyphens —
and after step three no whitespace remains, so it is a no-op and leading
and trailing hyphens are NOT removed.  Amended: `generateSlug` equals the
four-step pipeline with no trimming at all (and it is total by
construction). -/
theorem C5_slug_pipeline (title : String) :
    generateSlug title = slugPipelineNoTrim title := by
  unfold generateSlug slugPipelineNoTrim
  refine jsTrim_id _ ?_
  intro c hc
  rcases squashRuns_mem _ _ _ _ c hc with h | h
  · rw [h]; rfl
  · rcases squashRuns_mem _ _ _ _ c h.1 with h' | h'
    · rw [h']; rfl
    · exact h'.2

/-- C5 counterexample: leading and trailing hyphens survive, refuting the
"removes leading and trailing hyphens" sentence. -/
theorem C5_slug_pipeline_cex :
    generateSlug " a " = "-a-" ∧ ¬ generateSlug " a " = "a" := by decide

/-! ### C8: the export filename -/

/-- The filename the spec predicts when the slug is absent. -/
def specFallbackFilename (r : Recipe) : String := generateSlug r.title ++ ".html"

/-- C8: `generateExportFilename` is `slug + ".html"` when a (truthy) slug
is present.  CORRECTED: when the slug is absent the fallback is
`title.toLowerCase().replace(re-whitespace, "-")` — it does **not** strip
the characters outside `[a-z0-9\s-]` and does not collapse hyphen runs, so
it is not `generateSlug(title)`.  Amended accordingly. -/
theorem C8_export_filename (r : Recipe) :
    (∀ s, r.slug = some s → ¬ s = "" →
      generateExportFilename r = s ++ ".html") ∧
    (r.slug = none →
      generateExportFilename r =
        (⟨squashRuns isJsWs '-' false (jsToLower r.title).data⟩ : String) ++ ".html") := by
  constructor
  · intro s hs hne
    unfold generateExportFilename
    rw [hs]
    simp [jsOrStr, hne]
  · intro hs
    unfold generateExportFilename
    rw [hs]
    rfl

/-- C8 witness at a recipe with a slug and at one without. -/
theorem C8_export_filename_witness :
    (wRecipe.slug = some "garlic-butter-pasta" ∧ ¬ "garlic-butter-pasta" = "" ∧
      generateExportFilename wRecipe = "garlic-butter-pasta" ++ ".html") ∧
    (scriptRecipe.slug = none ∧
      generateExportFilename scriptRecipe =
        (⟨squashRuns isJsWs '-' false (jsToLower scriptRecipe.title).data⟩ : String) ++
          ".html") :=
  ⟨⟨by decide, by decide,
    (C8_export_filename wRecipe).1 "garlic-butter-pasta" (by decide) (by decide)⟩,
   ⟨by decide, (C8_export_filename scriptRecipe).2 (by decide)⟩⟩

/-- C8 counterexample: for the slug-less title of the repository test
suite, the produced filename keeps the apostrophe and parentheses, so it
differs from the spec formula `generateSlug(title) + ".html"`. -/
theorem C8_export_filename_cex :
    (⟨"Chef\x27s Special (2024)", none, none, none, [], none, none, none, none,
      none⟩ : Recipe).slug = none ∧
    generateExportFilename
      ⟨"Chef\x27s Special (2024)", none, none, none, [], none, none, none, none, none⟩ =
      "chef\x27s-special-(2024).html" ∧
    ¬ generateExportFilename
        ⟨"Chef\x27s Special (2024)", none, none, none, [], none, none, none, none, none⟩ =
      specFallbackFilename
        ⟨"Chef\x27s Special (2024)", none, none, none, [], none, none, none, none, none⟩ := by
  decide

/-! ### C2: timestamp reconciliation on a one-recipe store -/

/-- C2: with exactly one stored recipe of slug `s` (`savedAt` `T1`),
importing a recipe of the same slug and `savedAt` `T2` updates when
`T2 > T1`, and skips (leaving the store untouched) when `T2 < T1` or
`T2 = T1`.  The times are the parsed millisecond values of the two ISO
strings. -/
theorem C2_import_reconcile (ex r : Recipe) (s T1 T2 : String) (t1 t2 : Int)
    (hex : ex.slug = some s) (hrs : r.slug = some s) (hs : ¬ s = "")
    (hrt : r.savedAt = some T2) (hT2 : ¬ T2 = "") (ht2 : parseDateMs T2 = some t2)
    (hext : ex.savedAt = some T1) (hT1 : ¬ T1 = "") (ht1 : parseDateMs T1 = some t1) :
    (t1 < t2 → importRecipe r (some (serializeRecipes [ex])) =
        (.updated, some (serializeRecipes [r]))) ∧
    (t2 < t1 → importRecipe r (some (serializeRecipes [ex])) =
        (.skipped, some (serializeRecipes [ex]))) ∧
    (t2 = t1 → importRecipe r (some (serializeRecipes [ex])) =
        (.skipped, some (serializeRecipes [ex]))) := by
  have hslug : jsOrStr r.slug (generateSlug r.title) = s := by
    rw [hrs]; simp [jsOrStr, hs]
  have hsv : jsOrStr r.savedAt epochISO = T2 := by
    rw [hrt]; simp [jsOrStr, hT2]
  have heta : ({ r with slug := some s, savedAt := some T2 } : Recipe) = r := by
    rw [← hrs, ← hrt]
  have key : importRecipe r (some (serializeRecipes [ex])) =
      (if t1 < t2 then
        (.updated, some (serializeRecipes [r]))
       else (.skipped, some (serializeRecipes [ex]))) := by
    unfold importRecipe
    rw [getSavedRecipes_serialize, sortC_singleton, hslug, hsv]
    simp only [heta]
    have hfind : [ex].find? (slugIs s) = some ex := by
      simp [List.find?, slugIs, hex]
    simp only [hfind]
    have hrep : replaceFirst (slugIs s) r [ex] = [r] := by
      simp [replaceFirst, slugIs, hex]
    by_cases hc : t1 < t2
    · simp [jsTimeOf, hrt, hext, hT2, hT1, ht2, ht1, timeGt, hc, hrep]
    · simp [jsTimeOf, hrt, hext, hT2, hT1, ht2, ht1, timeGt, hc]
  refine ⟨fun h => ?_, fun h => ?_, fun h => ?_⟩
  · rw [key, if_pos h]
  · rw [key, if_neg (by omega)]
  · rw [key, if_neg (by omega)]

/-- C2 witness: one concrete store, three concrete comparisons. -/
theorem C2_import_reconcile_witness :
    ((0 : Int) < 86400000 → importRecipe
        ⟨"T", none, none, none, [], some "t", some "1970-01-02T00:00:00.000Z", none,
          none, none⟩
        (some (serializeRecipes
          [⟨"T", none, none, none, [], some "t", some "1970-01-01T00:00:00.000Z", none,
            none, none⟩])) =
      (.updated, some (serializeRecipes
        [⟨"T", none, none, none, [], some "t", some "1970-01-02T00:00:00.000Z", none,
          none, none⟩]))) ∧
    ((86400000 : Int) < 0 → importRecipe
        ⟨"T", none, none, none, [], some "t", some "1970-01-02T00:00:00.000Z", none,
          none, none⟩
        (some (serializeRecipes
          [⟨"T", none, none, none, [], some "t", some "1970-01-01T00:00:00.000Z", none,
            none, none⟩])) =
      (.skipped, some (serializeRecipes
        [⟨"T", none, none, none, [], some "t", some "1970-01-01T00:00:00.000Z", none,
          none, none⟩]))) ∧
    ((86400000 : Int) = 0 → importRecipe
        ⟨"T", none, none, none, [], some "t", some "1970-01-02T00:00:00.000Z", none,
          none, none⟩
        (some (serializeRecipes
          [⟨"T", none, none, none, [], some "t", some "1970-01-01T00:00:00.000Z", none,
            none, none⟩])) =
      (.skipped, some (serializeRecipes
        [⟨"T", none, none, none, [], some "t", some "1970-01-01T00:00:00.000Z", none,
          none, none⟩]))) :=
  C2_import_reconcile
    ⟨"T", none, none, none, [], some "t", some "1970-01-01T00:00:00.000Z", none,
      none, none⟩
    ⟨"T", none, none, none, [], some "t", some "1970-01-02T00:00:00.000Z", none,
      none, none⟩
    "t" "1970-01-01T00:00:00.000Z" "1970-01-02T00:00:00.000Z" 0 86400000
    rfl rfl (by decide) rfl (by decide) (by decide) rfl (by decide) (by decide)

/-! ### C4: timestamp fallbacks in reconciliation -/

theorem parseDateMs_epoch : parseDateMs epochISO = some 0 := by decide

theorem jsTimeOf_epoch : jsTimeOf (some epochISO) = some 0 := by decide

/-- C4: absent `savedAt` is time `0`; an imported recipe lacking `savedAt`
is stamped with the epoch string, loses a conflict against any entry with
a real (non-negative) timestamp, and is `added` when no entry with its
slug exists.  CORRECTED: an *unparseable* string is NOT treated as `0`:
`new Date` yields `NaN`, every comparison against which is false — the
claim's "0 used when the string is ... unparseable" misstates the code
(the spec sentence would make a positive-time import beat an unparseable
entry; the code skips it, see the counterexample). -/
theorem C4_timestamp_fallbacks :
    jsTimeOf none = some 0 ∧
    parseDateMs epochISO = some 0 ∧
    (∀ s, ¬ s = "" → parseDateMs s = none → jsTimeOf (some s) = none) ∧
    (∀ b : Option Int, timeGt none b = false ∧ timeGt b none = false) ∧
    (∀ (r ex : Recipe) (s T1 : String) (t1 : Int),
      r.slug = some s → ¬ s = "" → r.savedAt = none →
      ex.slug = some s → ex.savedAt = some T1 → ¬ T1 = "" →
      parseDateMs T1 = some t1 → 0 ≤ t1 →
      importRecipe r (some (serializeRecipes [ex])) =
        (.skipped, some (serializeRecipes [ex]))) ∧
    (∀ (r : Recipe) (s : String),
      r.slug = some s → ¬ s = "" → r.savedAt = none →
      importRecipe r none =
        (.added, some (serializeRecipes
          [{ r with slug := some s, savedAt := some epochISO }]))) := by
  refine ⟨rfl, parseDateMs_epoch, ?_, ?_, ?_, ?_⟩
  · intro s hs hp
    simp [jsTimeOf, hs, hp]
  · intro b
    constructor
    · rfl
    · cases b <;> rfl
  · intro r ex s T1 t1 hrs hs hrn hex hext hT1 ht1 h0
    have hslug : jsOrStr r.slug (generateSlug r.title) = s := by
      rw [hrs]; simp [jsOrStr, hs]
    have hsv : jsOrStr r.savedAt epochISO = epochISO := by rw [hrn]; rfl
    unfold importRecipe
    rw [getSavedRecipes_serialize, sortC_singleton, hslug, hsv]
    have hfind : [ex].find? (slugIs s) = some ex := by
      simp [List.find?, slugIs, hex]
    simp only [hfind]
    have hlt : ¬ t1 < 0 := by omega
    simp [jsTimeOf_epoch, jsTimeOf, hext, hT1, ht1, timeGt, hlt, parseDateMs_epoch,
      show ¬ epochISO = "" from by decide]
  · intro r s hrs hs hrn
    have hslug : jsOrStr r.slug (generateSlug r.title) = s := by
      rw [hrs]; simp [jsOrStr, hs]
    have hsv : jsOrStr r.savedAt epochISO = epochISO := by rw [hrn]; rfl
    unfold importRecipe
    rw [hslug, hsv]
    rfl

/-- C4 witness: the general conjuncts applied at a concrete store. -/
theorem C4_timestamp_fallbacks_witness :
    importRecipe ⟨"N", none, none, none, [], some "n", none, none, none, none⟩
        (some (serializeRecipes
          [⟨"O", none, none, none, [], some "n", some "1970-01-02T00:00:00.000Z", none,
            none, none⟩])) =
      (.skipped, some (serializeRecipes
        [⟨"O", none, none, none, [], some "n", some "1970-01-02T00:00:00.000Z", none,
          none, none⟩])) ∧
    importRecipe ⟨"N", none, none, none, [], some "n", none, none, none, none⟩ none =
      (.added, some (serializeRecipes
        [⟨"N", none, none, none, [], some "n", some epochISO, none, none, none⟩])) :=
  ⟨(C4_timestamp_fallbacks.2.2.2.2.1)
      ⟨"N", none, none, none, [], some "n", none, none, none, none⟩
      ⟨"O", none, none, none, [], some "n", some "1970-01-02T00:00:00.000Z", none,
        none, none⟩
      "n" "1970-01-02T00:00:00.000Z" 86400000
      rfl (by decide) rfl rfl rfl (by decide) (by decide) (by decide),
   (C4_timestamp_fallbacks.2.2.2.2.2)
      ⟨"N", none, none, none, [], some "n", none, none, none, none⟩
      "n" rfl (by decide) rfl⟩

/-- C4 counterexample: against an entry whose `savedAt` does not parse,
an import carrying a real positive time is *skipped*; under the spec
reading (unparseable = 0) its comparison `86400000 > 0` would have made
it an update. -/
theorem C4_timestamp_fallbacks_cex :
    parseDateMs "garbage" = none ∧
    timeGt (some 86400000) (some 0) = true ∧
    importRecipe
        ⟨"I", none, none, none, [], some "g", some "1970-01-02T00:00:00.000Z", none,
          none, none⟩
        (some (serializeRecipes
          [⟨"E", none, none, none, [], some "g", some "garbage", none, none, none⟩])) =
      (.skipped, some (serializeRecipes
        [⟨"E", none, none, none, [], some "g", some "garbage", none, none, none⟩])) := by
  refine ⟨by decide, by decide, ?_⟩
  rfl

/-! ### C9: `getSavedRecipes` -/

/-- C9: `getSavedRecipes` never throws (it is a total function in the
model): an absent key, an empty value, or a string `JSON.parse` rejects
all give `[]`; a stored recipe array comes back sorted descending by
`savedAt` (a permutation of the stored entries that is pairwise
descending under the numeric sort key, stated for stores whose parseable
timestamps make the comparator consistent), and an entry without
`savedAt` keys as `0`, the epoch. -/
theorem C9_getSavedRecipes (junk : String) (rs : List Recipe) :
    getSavedRecipes none = [] ∧
    getSavedRecipes (some "") = [] ∧
    (¬ junk = "" → jsonParse junk = none → getSavedRecipes (some junk) = []) ∧
    ((∀ x ∈ rs, (jsTimeOf x.savedAt).isSome) →
      (getSavedRecipes (some (serializeRecipes rs))).Perm rs ∧
      (getSavedRecipes (some (serializeRecipes rs))).Pairwise descBy) ∧
    (∀ r : Recipe, r.savedAt = none → savedKey r = 0) ∧
    parseDateMs epochISO = some 0 := by
  refine ⟨rfl, rfl, ?_, ?_, ?_, parseDateMs_epoch⟩
  · intro hne hp
    simp [getSavedRecipes, parseRecipes, hne, hp]
  · intro hall
    rw [getSavedRecipes_serialize]
    exact ⟨sortC_perm rs, sortC_pairwise hall⟩
  · intro r h
    simp [savedKey, jsTimeOf, h]

/-- C9 witness: concrete junk input and a concrete two-recipe store (one
entry without `savedAt`). -/
theorem C9_getSavedRecipes_witness :
    ¬ "not json" = "" ∧ jsonParse "not json" = none ∧
    (∀ x ∈ [wRecipe, scriptRecipe], (jsTimeOf x.savedAt).isSome) ∧
    (getSavedRecipes none = [] ∧
     getSavedRecipes (some "") = [] ∧
     (¬ "not json" = "" → jsonParse "not json" = none →
       getSavedRecipes (some "not json") = []) ∧
     ((∀ x ∈ [wRecipe, scriptRecipe], (jsTimeOf x.savedAt).isSome) →
       (getSavedRecipes (some (serializeRecipes [wRecipe, scriptRecipe]))).Perm
         [wRecipe, scriptRecipe] ∧
       (getSavedRecipes (some (serializeRecipes [wRecipe, scriptRecipe]))).Pairwise
         descBy) ∧
     (∀ r : Recipe, r.savedAt = none → savedKey r = 0) ∧
     parseDateMs epochISO = some 0) :=
  ⟨by decide, by decide, by decide,
   C9_getSavedRecipes "not json" [wRecipe, scriptRecipe]⟩

/-! ### C10: the frame property of `importRecipe` -/

/-- C10: `importRecipe` leaves every stored entry whose slug differs from
the imported recipe's resolved slug unchanged (the multiset of
other-slug entries is preserved), and on `skipped` the state is not
written at all — it is returned exactly as it was. -/
theorem C10_import_frame (r : Recipe) (st : StorageState) :
    ((importRecipe r st).1 = .skipped → (importRecipe r st).2 = st) ∧
    ((getSavedRecipes (importRecipe r st).2).filter
        (fun x => !slugIs (jsOrStr r.slug (generateSlug r.title)) x)).Perm
      ((getSavedRecipes st).filter
        (fun x => !slugIs (jsOrStr r.slug (generateSlug r.title)) x)) := by
  rcases hf : (getSavedRecipes st).find? (slugIs (jsOrStr r.slug (generateSlug r.title)))
    with _ | ex
  · have he : importRecipe r st = (.added, some (serializeRecipes
        (({ r with
            slug := some (jsOrStr r.slug (generateSlug r.title)),
            savedAt := some (jsOrStr r.savedAt epochISO) } : Recipe) ::
          getSavedRecipes st))) := by
      simp [importRecipe, hf]
    rw [he]
    refine ⟨fun h => by simp at h, ?_⟩
    show ((getSavedRecipes (some (serializeRecipes _))).filter _).Perm _
    rw [getSavedRecipes_serialize]
    refine ((sortC_perm _).filter _).trans ?_
    rw [List.filter_cons_of_neg (by simp [slugIs])]
  · by_cases hgt : timeGt
        (jsTimeOf (some (jsOrStr r.savedAt epochISO))) (jsTimeOf ex.savedAt)
    · have he : importRecipe r st = (.updated, some (serializeRecipes
          (replaceFirst (slugIs (jsOrStr r.slug (generateSlug r.title)))
            ({ r with
               slug := some (jsOrStr r.slug (generateSlug r.title)),
               savedAt := some (jsOrStr r.savedAt epochISO) } : Recipe)
            (getSavedRecipes st)))) := by
        simp [importRecipe, hf, hgt]
      rw [he]
      refine ⟨fun h => by simp at h, ?_⟩
      show ((getSavedRecipes (some (serializeRecipes _))).filter _).Perm _
      rw [getSavedRecipes_serialize]
      refine ((sortC_perm _).filter _).trans ?_
      rw [filter_replaceFirst _ _ (by simp [slugIs]) _]
    · have he : importRecipe r st = (.skipped, st) := by
        simp [importRecipe, hf, hgt]
      rw [he]
      exact ⟨fun _ => rfl, List.Perm.refl _⟩

/-! ### C6: preview versus actual import -/

/-- Stamping with the epoch fallback does not change the numeric time. -/
theorem jsTimeOf_stamp (o : Option String) :
    jsTimeOf (some (jsOrStr o epochISO)) = jsTimeOf o := by
  cases o with
  | none => decide
  | some s =>
    by_cases hs : s = ""
    · rw [hs]; decide
    · simp [jsOrStr, jsTimeOf, hs]

/-- C6: `previewImport` never writes (in the model it returns no state),
and for a single-recipe list it reports exactly the bucket `importRecipes`
reports.  CORRECTED: for longer lists the two can diverge — `previewImport`
classifies every recipe against the same snapshot while `importRecipes`
re-reads after each write, so a batch with two recipes of one slug is
previewed `added`/`added` but imported `added`/`skipped` (see the
counterexample). -/
theorem C6_preview_single (r : Recipe) (st : StorageState) :
    previewImport [r] st = (importRecipes [r] st).1 := by
  have him : (importRecipes [r] st).1 = pushAction (importRecipe r st).1 r ⟨[], [], []⟩ :=
    rfl
  rw [him]
  show previewStep (getSavedRecipes st) r ⟨[], [], []⟩ = _
  unfold previewStep importRecipe
  rcases hf : (getSavedRecipes st).find? (slugIs (jsOrStr r.slug (generateSlug r.title)))
    with _ | ex
  · simp [hf, pushAction]
  · simp only [hf]
    rw [jsTimeOf_stamp]
    by_cases hgt : timeGt (jsTimeOf r.savedAt) (jsTimeOf ex.savedAt)
    · simp [hgt, pushAction]
    · simp [hgt, pushAction]

/-- C6 witness: agreement at one concrete recipe and store. -/
theorem C6_preview_single_witness :
    previewImport [wRecipe] (some (serializeRecipes [scriptRecipe])) =
      (importRecipes [wRecipe] (some (serializeRecipes [scriptRecipe]))).1 :=
  C6_preview_single wRecipe (some (serializeRecipes [scriptRecipe]))

/-- C6 counterexample: a two-element batch with a repeated slug on an
empty store is previewed added/added but imported added/skipped. -/
theorem C6_preview_single_cex :
    (previewImport
        [⟨"D", none, none, none, [], some "d", some "1970-01-02T00:00:00.000Z", none,
          none, none⟩,
         ⟨"D", none, none, none, [], some "d", some "1970-01-02T00:00:00.000Z", none,
          none, none⟩] none).added.length = 2 ∧
    ((importRecipes
        [⟨"D", none, none, none, [], some "d", some "1970-01-02T00:00:00.000Z", none,
          none, none⟩,
         ⟨"D", none, none, none, [], some "d", some "1970-01-02T00:00:00.000Z", none,
          none, none⟩] none).1).added.length = 1 ∧
    ((importRecipes
        [⟨"D", none, none, none, [], some "d", some "1970-01-02T00:00:00.000Z", none,
          none, none⟩,
         ⟨"D", none, none, none, [], some "d", some "1970-01-02T00:00:00.000Z", none,
          none, none⟩] none).1).skipped.length = 1 := by
  refine ⟨rfl, ?_, ?_⟩ <;> rfl

/-! ### C7: slug uniqueness preservation -/

/-- C7: from a state in which each slug occurs in at most one stored
recipe, `saveRecipe`, `importRecipe`, `importRecipes` and `deleteRecipe`
preserve the invariant.  CORRECTED for `updateRecipe`: the claim quantifies
over *any* partial-field argument, but a partial containing a `slug` key
overwrites the matched entry's slug with an arbitrary value and can
duplicate an existing slug (see the counterexample); uniqueness is
preserved exactly when the partial carries no `slug` key. -/
theorem C7_slug_uniqueness :
    (∀ (now : String) (r : Recipe) (st : StorageState),
      NoDupSlugs (getSavedRecipes st) →
      NoDupSlugs (getSavedRecipes (saveRecipe now r st).2)) ∧
    (∀ (now slug : String) (u : RecipeUpdates) (st : StorageState), u.slug = none →
      NoDupSlugs (getSavedRecipes st) →
      NoDupSlugs (getSavedRecipes (updateRecipe now slug u st).2)) ∧
    (∀ (r : Recipe) (st : StorageState),
      NoDupSlugs (getSavedRecipes st) →
      NoDupSlugs (getSavedRecipes (importRecipe r st).2)) ∧
    (∀ (l : List Recipe) (st : StorageState),
      NoDupSlugs (getSavedRecipes st) →
      NoDupSlugs (getSavedRecipes (importRecipes l st).2)) ∧
    (∀ (slug : String) (st : StorageState),
      NoDupSlugs (getSavedRecipes st) →
      NoDupSlugs (getSavedRecipes (deleteRecipe slug st))) :=
  ⟨saveRecipe_noDup,
   fun now slug u st hu h => updateRecipe_noDup now slug u st hu h,
   importRecipe_noDup,
   importRecipes_noDup,
   deleteRecipe_noDup⟩

/-- C7 witness: saving into the empty store keeps slugs unique. -/
theorem C7_slug_uniqueness_witness :
    NoDupSlugs (getSavedRecipes
      (saveRecipe "2024-01-01T00:00:00.000Z" wRecipe none).2) :=
  C7_slug_uniqueness.1 "2024-01-01T00:00:00.000Z" wRecipe none List.Pairwise.nil

/-- C7 counterexample: an `updateRecipe` partial that carries a `slug` key
rewrites entry `b`'s slug to `a`, leaving two stored recipes with slug
`a`. -/
theorem C7_slug_uniqueness_cex :
    NoDupSlugs (getSavedRecipes (some (serializeRecipes
      [⟨"A", none, none, none, [], some "a", some "1970-01-02T00:00:00.000Z", none,
        none, none⟩,
       ⟨"B", none, none, none, [], some "b", some "1970-01-01T00:00:00.000Z", none,
        none, none⟩]))) ∧
    ¬ NoDupSlugs (getSavedRecipes
      (updateRecipe "1970-01-03T00:00:00.000Z" "b"
        ⟨none, none, none, none, none, some (some "a"), none, none, none, none⟩
        (some (serializeRecipes
          [⟨"A", none, none, none, [], some "a", some "1970-01-02T00:00:00.000Z", none,
            none, none⟩,
           ⟨"B", none, none, none, [], some "b", some "1970-01-01T00:00:00.000Z", none,
            none, none⟩]))).2) := by
  constructor
  · show List.Pairwise _ _
    decide
  · show ¬ List.Pairwise _ _
    decide

/-! ### C3: image stripping on export -/

/-- Does `pat` occur as a substring? -/
def occursIn (pat s : List Char) : Bool := (splitFirst pat s).isSome

/-- C3: every image-type content entry of the stripped conversation is the
fixed placeholder (`text` is `"[image]"`, `image` and `mimeType` absent),
and the recipe embedded in the exported document carries the stripped
conversation.  CORRECTED: the exported HTML *can* still contain the
original payload bytes — stripping only rewrites `conversationHistory`, so
a payload that also occurs in another field (the counterexample puts it in
the title) survives verbatim; the claim's "never contains the original
image payload as a substring" over-promises. -/
theorem C3_strip_images :
    (∀ (ms : List Message), ∀ m ∈ stripImagesFromConversation ms,
      ∀ cs, m.content = .parts cs → ∀ c ∈ cs, c.type = ContentType.image →
      c = ⟨.image, some "[image]", none, none⟩) ∧
    (∀ (r : Recipe) (ms : List Message), r.conversationHistory = some ms →
      (prepareRecipeForExport r).conversationHistory =
        some (stripImagesFromConversation ms)) := by
  constructor
  · intro ms m hm cs hcs c hc htype
    obtain ⟨m0, hm0, hgen⟩ := List.mem_map.mp hm
    obtain ⟨ro, co⟩ := m0
    cases co with
    | str s =>
      rw [← hgen] at hcs
      exact absurd hcs (by simp [stripMessage])
    | parts cs0 =>
      rw [← hgen] at hcs
      simp only [stripMessage] at hcs
      have : cs = cs0.map stripContent := by
        injection hcs with h
        exact h.symm
      rw [this] at hc
      obtain ⟨c0, hc0, hgc⟩ := List.mem_map.mp hc
      unfold stripContent at hgc
      by_cases ht0 : c0.type = ContentType.image
      · rw [if_pos ht0] at hgc
        exact hgc.symm
      · rw [if_neg ht0] at hgc
        rw [← hgc] at htype
        exact absurd htype ht0
  · intro r ms hms
    unfold prepareRecipeForExport
    rw [hms]

/-- C3 witness: a conversation with one image entry strips to the
placeholder, and the prepared recipe carries it. -/
theorem C3_strip_images_witness :
    stripImagesFromConversation
      [⟨.user, .parts [⟨.image, none, some "AAAA", some "image/png"⟩]⟩] =
      [⟨.user, .parts [⟨.image, some "[image]", none, none⟩]⟩] ∧
    (⟨.image, some "[image]", none, none⟩ : MessageContent) =
      ⟨.image, some "[image]", none, none⟩ :=
  ⟨rfl,
   C3_strip_images.1 [⟨.user, .parts [⟨.image, none, some "AAAA", some "image/png"⟩]⟩]
     ⟨.user, .parts [⟨.image, some "[image]", none, none⟩]⟩ (by decide)
     [⟨.image, some "[image]", none, none⟩] rfl
     ⟨.image, some "[image]", none, none⟩ (by decide) rfl⟩

/-- C3 counterexample: a recipe whose title equals its image payload; the
conversation entry is stripped, yet the payload occurs verbatim in the
generated HTML (through the title), refuting "never contains the original
image payload as a substring". -/
theorem C3_strip_images_cex :
    hasImageContent
      ⟨"PAYLOADDATA", none, none, none, [], none, none,
        some [⟨.user, .parts [⟨.image, none, some "PAYLOADDATA", some "image/png"⟩]⟩],
        none, none⟩ = true ∧
    occursIn "PAYLOADDATA".data
      (generateRecipeHtml
        ⟨"PAYLOADDATA", none, none, none, [], none, none,
          some [⟨.user, .parts [⟨.image, none, some "PAYLOADDATA", some "image/png"⟩]⟩],
          none, none⟩).data = true := by
  refine ⟨by decide, ?_⟩
  rfl
